import Mathlib

/-!
Verification of the argon2 hash-string codec (encoding.go) against its
specification.  The codec is embedded shallowly: bytes are `Nat` values
below 256, byte slices are `List Nat`, the Go `uint32` arithmetic in
`parseUint32` is `Nat` arithmetic reduced modulo `2^32`, and the single
decoding error `ErrDecodingFail` is modelled by `Option.none`.
-/

namespace Argon2

/-- ASCII bytes of a string literal, for readable concrete inputs. -/
def asciiBytes (s : String) : List Nat := s.data.map Char.toNat

/-! ### Modes (values of the C enum argon2_type: Argon2_d = 0, Argon2_i = 1, Argon2_id = 2) -/

def ModeArgon2d : Nat := 0
def ModeArgon2i : Nat := 1
def ModeArgon2id : Nat := 2

/-- Go struct `Config` (argon2.go): all fields are uint32. -/
structure Config where
  HashLength : Nat
  SaltLength : Nat
  TimeCost : Nat
  MemoryCost : Nat
  Parallelism : Nat
  Mode : Nat
  Version : Nat
deriving DecidableEq, Repr

/-- Go struct `Raw` (argon2.go): a salt and hash pair with its Config. -/
structure Raw where
  Config : Config
  Salt : List Nat
  Hash : List Nat
deriving DecidableEq, Repr

/-! ### The cursor-based parser (encoding.go lines 13-107) -/

/-- Go struct `parser`: an input buffer and a monotonically increasing offset. -/
structure Parser where
  buf : List Nat
  off : Nat
deriving DecidableEq, Repr

/-- Go `bytes.Compare`: lexicographic three-way comparison, 0 iff equal. -/
def bytesCompare : List Nat → List Nat → Int
  | [], [] => 0
  | [], _ :: _ => -1
  | _ :: _, [] => 1
  | a :: as, b :: bs => if a < b then -1 else if b < a then 1 else bytesCompare as bs

/-- Go `parser.check`: if `off + len(b) <= len(buf)`, advance by `len(b)` and
return the comparison of `b` with the bytes read; otherwise return 0 without
advancing. -/
def Parser.check (p : Parser) (b : List Nat) : Int × Parser :=
  let l := b.length
  let i := p.off
  let j := i + l
  if j ≤ p.buf.length then
    (bytesCompare b ((p.buf.drop i).take l), { p with off := j })
  else
    (0, p)

/-- Go `parser.readByte`: next byte (advancing by one) or 0 at end of buffer. -/
def Parser.readByte (p : Parser) : Nat × Parser :=
  if p.off < p.buf.length then
    (p.buf.getD p.off 0, { p with off := p.off + 1 })
  else
    (0, p)

/-- The loop of Go `parser.parseUint32` over the bytes from the current offset:
returns `none` when the uint32 accumulator wrapped below its previous value
(the code then returns 0 without storing the new offset), otherwise the
accumulated value and the number of digit bytes consumed. -/
def parseU32Aux : List Nat → Nat → Nat → Option (Nat × Nat)
  | [], r, c => some (r, c)
  | d :: rest, r, c =>
    if 48 ≤ d ∧ d ≤ 57 then
      let rb := r
      let r2 := (r * 10 + (d - 48)) % 4294967296
      if r2 < rb then none
      else parseU32Aux rest r2 (c + 1)
    else
      some (r, c)

/-- Go `parser.parseUint32`. -/
def Parser.parseUint32 (p : Parser) : Nat × Parser :=
  match parseU32Aux (p.buf.drop p.off) 0 0 with
  | none => (0, p)
  | some (r, c) => (r, { p with off := p.off + c })

/-- Go `bytes.IndexByte` (index of the first occurrence, `none` for -1). -/
def indexByte : List Nat → Nat → Option Nat
  | [], _ => none
  | c :: rest, d => if c = d then some 0 else (indexByte rest d).map (· + 1)

/-- Go `parser.skipUntil`: skip past the next `delim`; no move if absent. -/
def Parser.skipUntil (p : Parser) (delim : Nat) : Parser :=
  match indexByte (p.buf.drop p.off) delim with
  | some idx => { p with off := p.off + idx + 1 }
  | none => p

/-- Go `parser.readSlice`: the bytes strictly before the next `delim`
(advancing past it), or `none` if `delim` is absent or the span is empty. -/
def Parser.readSlice (p : Parser) (delim : Nat) : Option (List Nat) × Parser :=
  match indexByte (p.buf.drop p.off) delim with
  | some idx =>
    if 0 < idx then
      (some ((p.buf.drop p.off).take idx), { p with off := p.off + idx + 1 })
    else
      (none, p)
  | none => (none, p)

/-- Go `parser.readRest`: the remaining bytes, or `none` if none remain. -/
def Parser.readRest (p : Parser) : Option (List Nat) × Parser :=
  if p.off < p.buf.length then
    (some (p.buf.drop p.off), { p with off := p.buf.length })
  else
    (none, p)

/-! ### Base64 (Go encoding/base64 RawStdEncoding: standard alphabet, no padding) -/

/-- The standard base64 alphabet as a function from a sextet to its ASCII code. -/
def encChar (x : Nat) : Nat :=
  if x < 26 then 65 + x
  else if x < 52 then 97 + (x - 26)
  else if x < 62 then 48 + (x - 52)
  else if x = 62 then 43
  else 47

/-- Go `Encoding.decodeMap` for the standard alphabet: ASCII code to sextet,
255 for bytes outside the alphabet. -/
def decodeMap (c : Nat) : Nat :=
  if 65 ≤ c ∧ c ≤ 90 then c - 65
  else if 97 ≤ c ∧ c ≤ 122 then c - 71
  else if 48 ≤ c ∧ c ≤ 57 then c + 4
  else if c = 43 then 62
  else if c = 47 then 63
  else 255

/-- Go `Encoding.Encode` for `RawStdEncoding` (also the observable behaviour of
`appendBase64` in encoding.go): three input bytes become four alphabet bytes,
a final remainder of one or two bytes becomes two or three alphabet bytes. -/
def b64Encode : List Nat → List Nat
  | [] => []
  | [a] => [encChar (a / 4), encChar (a % 4 * 16)]
  | [a, b] => [encChar (a / 4), encChar (a % 4 * 16 + b / 16), encChar (b % 16 * 4)]
  | a :: b :: c :: rest =>
    encChar (a / 4) :: encChar (a % 4 * 16 + b / 16) :: encChar (b % 16 * 4 + c / 64)
      :: encChar (c % 64) :: b64Encode rest

/-- First output byte of a decoded base64 quantum (`val >> 16`). -/
def b64Byte0 (s0 s1 : Nat) : Nat := s0 * 4 + s1 / 16

/-- Second output byte of a decoded base64 quantum (`val >> 8` mod 256). -/
def b64Byte1 (s1 s2 : Nat) : Nat := s1 % 16 * 16 + s2 / 4

/-- Third output byte of a decoded base64 quantum (`val` mod 256). -/
def b64Byte2 (s2 s3 : Nat) : Nat := s2 % 4 * 64 + s3

/-- Go `Encoding.Decode` for `RawStdEncoding`, written as one pass collecting
sextets (`acc`, at most three pending).  Faithful to `decodeQuantum`: bytes
outside the alphabet are fatal unless they are `\n` (10) or `\r` (13), which
are skipped; at end of input a single pending sextet is fatal, two or three
pending sextets yield one or two final bytes, no pending sextet yields
nothing. -/
def b64DecodeAux : List Nat → List Nat → Option (List Nat)
  | acc, [] =>
    match acc with
    | [] => some []
    | [_] => none
    | [s0, s1] => some [b64Byte0 s0 s1]
    | s0 :: s1 :: s2 :: _ => some [b64Byte0 s0 s1, b64Byte1 s1 s2]
  | acc, c :: rest =>
    let out := decodeMap c
    if out = 255 then
      if c = 10 ∨ c = 13 then b64DecodeAux acc rest else none
    else
      match acc with
      | s0 :: s1 :: s2 :: _ =>
        (b64DecodeAux [] rest).map
          (fun bs => b64Byte0 s0 s1 :: b64Byte1 s1 s2 :: b64Byte2 s2 out :: bs)
      | _ => b64DecodeAux (acc ++ [out]) rest

/-- Go `enc64.Decode` as used by `Decode`: `none` models a non-nil error. -/
def b64Decode (src : List Nat) : Option (List Nat) := b64DecodeAux [] src

/-! ### Decimal rendering (Go strconv.AppendUint base 10) -/

/-- Fuel-driven minimal decimal rendering; fuel `n + 1` always suffices. -/
def decDigitsAux : Nat → Nat → List Nat → List Nat
  | 0, _, acc => acc
  | fuel + 1, n, acc =>
    if n < 10 then (48 + n) :: acc
    else decDigitsAux fuel (n / 10) ((48 + n % 10) :: acc)

/-- Go `strconv.AppendUint(-, n, 10)`: the minimal decimal ASCII digits of `n`. -/
def decDigits (n : Nat) : List Nat := decDigitsAux (n + 1) n []

/-- The value accumulated by the `parseUint32` loop over a list of ASCII
digits, starting from `r` (specification device for the parse lemmas). -/
def digitsVal (r : Nat) : List Nat → Nat
  | [] => r
  | d :: t => digitsVal (r * 10 + (d - 48)) t

/-! ### The codec literals (encoding.go lines 139-150) -/

def decChunk1 : List Nat := [36, 97, 114, 103, 111, 110, 50]
def decChunk2 : List Nat := [118, 61]
def decChunk3 : List Nat := [36, 109, 61]
def decChunk4 : List Nat := [44, 116, 61]
def decChunk5 : List Nat := [44, 112, 61]
def encTypD : List Nat := [100, 36, 118, 61]
def encTypI : List Nat := [105, 36, 118, 61]
def encTypID : List Nat := [105, 100, 36, 118, 61]

/-! ### Encode (encoding.go lines 155-195) -/

/-- Go `Raw.Encode`: serialize a `Raw` into the textual argon2 form.  Buffer
append is list concatenation; an unrecognized mode leaves `encTyp` nil. -/
def Raw.Encode (raw : Raw) : List Nat :=
  let c := raw.Config
  let encTyp : List Nat :=
    if c.Mode = ModeArgon2d then encTypD
    else if c.Mode = ModeArgon2i then encTypI
    else if c.Mode = ModeArgon2id then encTypID
    else []
  decChunk1 ++ encTyp ++ decDigits c.Version
    ++ decChunk3 ++ decDigits c.MemoryCost
    ++ decChunk4 ++ decDigits c.TimeCost
    ++ decChunk5 ++ decDigits c.Parallelism
    ++ [36] ++ b64Encode raw.Salt
    ++ [36] ++ b64Encode raw.Hash

/-! ### Decode (encoding.go lines 200-269) -/

/-- The tail of Go `Decode` after the variant has been determined
(encoding.go lines 230-269): the fixed scan, the single aggregated validity
check, and the base64 decoding of salt and hash. -/
def decodeParams (mode : Nat) (pa0 : Parser) : Option Raw :=
  let r1 := pa0.check decChunk2
  let r2 := r1.2.parseUint32
  let r3 := r2.2.check decChunk3
  let r4 := r3.2.parseUint32
  let r5 := r4.2.check decChunk4
  let r6 := r5.2.parseUint32
  let r7 := r6.2.check decChunk5
  let r8 := r7.2.parseUint32
  let pa9 := r8.2.skipUntil 36
  let r10 := pa9.readSlice 36
  let r11 := r10.2.readRest
  let ok := Int.lor (Int.lor (Int.lor r1.1 r3.1) r5.1) r7.1
  if ok ≠ 0 ∨ r2.1 = 0 ∨ 255 < r2.1 ∨ r4.1 = 0 ∨ r6.1 = 0 ∨ r8.1 = 0
      ∨ r10.1 = none ∨ r11.1 = none then
    none
  else
    match r10.1, r11.1 with
    | some s, some h =>
      match b64Decode s, b64Decode h with
      | some salt, some hash =>
        some { Config := { HashLength := hash.length, SaltLength := salt.length,
                           TimeCost := r6.1, MemoryCost := r4.1,
                           Parallelism := r8.1, Mode := mode, Version := r2.1 },
               Salt := salt, Hash := hash }
      | _, _ => none
    | _, _ => none

/-- Go `Decode`: the literal `$argon2`, the variant disambiguation
(encoding.go lines 208-228, where an `i` followed by a byte other than `d` or
`$` falls through with `mode` still holding its zero value `ModeArgon2d`),
then `decodeParams`.  `none` models the error `ErrDecodingFail`. -/
def Decode (encoded : List Nat) : Option Raw :=
  let pa0 : Parser := { buf := encoded, off := 0 }
  let r1 := pa0.check decChunk1
  if r1.1 ≠ 0 then none
  else
    let r2 := r1.2.readByte
    let r3 := r2.2.readByte
    if r2.1 = 105 then
      if r3.1 = 100 then
        let r4 := r3.2.readByte
        if r4.1 = 36 then decodeParams ModeArgon2id r4.2 else none
      else if r3.1 = 36 then decodeParams ModeArgon2i r3.2
      else decodeParams ModeArgon2d r3.2
    else if r2.1 = 100 then decodeParams ModeArgon2d r3.2
    else none

/-! ### Concrete records used by the theorems below -/

/-- A parser step from state `p` to state `q` that respects the cursor
contract: same buffer, offset not decreased, offset still within bounds. -/
def Advances (p q : Parser) : Prop :=
  q.buf = p.buf ∧ p.off ≤ q.off ∧ q.off ≤ p.buf.length

/-- The record of the repository's own test vector (argon2_test.go). -/
def canonRaw : Raw :=
  { Config := { HashLength := 32, SaltLength := 8, TimeCost := 1, MemoryCost := 32768,
                Parallelism := 1, Mode := 2, Version := 19 },
    Salt := asciiBytes "saltsalt",
    Hash := [139, 118, 66, 92, 63, 17, 51, 11, 184, 106, 68, 37, 211, 16, 139, 244,
             189, 217, 38, 53, 116, 148, 139, 173, 176, 3, 182, 239, 235, 210, 75, 155] }

/-- The canonical encoded form of `canonRaw`. -/
def canonEncoded : List Nat :=
  asciiBytes "$argon2id$v=19$m=32768,t=1,p=1$c2FsdHNhbHQ$i3ZCXD8RMwu4akQl0xCL9L3ZJjV0lIutsAO27+vSS5s"

/-- A record satisfying every validity hypothesis of the round-trip claim
(variant d, version 1, costs 1, non-empty salt and hash) whose `HashLength`
field disagrees with the length of its hash. -/
def mismatchedLenRaw : Raw :=
  { Config := { HashLength := 5, SaltLength := 1, TimeCost := 1, MemoryCost := 1,
                Parallelism := 1, Mode := 0, Version := 1 },
    Salt := [65], Hash := [66] }

/-- A record whose Config.Mode (3) is none of the three recognized modes. -/
def unknownModeRaw : Raw :=
  { Config := { HashLength := 1, SaltLength := 1, TimeCost := 1, MemoryCost := 1,
                Parallelism := 1, Mode := 3, Version := 19 },
    Salt := [65], Hash := [66] }

/-! ### Theorems -/

/-- C7: Encoding the record (variant id, version 19, m=32768, t=1, p=1,
salt "saltsalt", the given 32-byte digest) yields exactly the canonical
string, and decoding that string reproduces exactly those field values. -/
theorem encode_decode_concrete_vector :
    canonRaw.Encode = canonEncoded ∧ Decode canonEncoded = some canonRaw := by
  constructor
  · rfl
  · rfl

/-- C2 (code bug exhibit): the input `$argon2ix...` — `i` followed by a byte
that is neither `d` nor `$` — is not rejected: the missing fall-through return
in the variant disambiguation leaves `mode` at its zero value `ModeArgon2d`,
and decoding succeeds, returning the record as variant d. -/
theorem decode_variant_fallthrough_accepts :
    Decode (asciiBytes "$argon2ixv=19$m=1,t=1,p=1$QQ$Qg")
      = some { Config := { HashLength := 1, SaltLength := 1, TimeCost := 1,
                           MemoryCost := 1, Parallelism := 1,
                           Mode := ModeArgon2d, Version := 19 },
               Salt := [65], Hash := [66] } := by
  rfl

/-- C5 (code bug exhibit): the digit sequence "10000000000" (the spec's own
example of an overflowing field) is not caught by the wrap-around test
`r < rb`: `parseUint32` consumes all eleven digits and returns
`10^10 mod 2^32 = 1410065408`, not 0, and an otherwise-valid encoded string
with memory cost field "10000000000" is accepted by `Decode` with memory cost
1410065408 instead of being rejected. -/
theorem parseUint32_overflow_undetected :
    (Parser.mk (asciiBytes "10000000000") 0).parseUint32
        = (1410065408, Parser.mk (asciiBytes "10000000000") 11)
      ∧ Decode (asciiBytes "$argon2id$v=19$m=10000000000,t=1,p=1$QQ$Qg")
        = some { Config := { HashLength := 1, SaltLength := 1, TimeCost := 1,
                             MemoryCost := 1410065408, Parallelism := 1,
                             Mode := ModeArgon2id, Version := 19 },
                 Salt := [65], Hash := [66] } := by
  constructor
  · rfl
  · rfl

/-- C1 (counterexample): `mismatchedLenRaw` meets all the claim's validity
conditions (variant in {d,i,id}, version in 1..255, positive costs, non-empty
salt and digest), yet `Decode (Encode r)` does not reproduce it field-for-field:
the decoded record carries `HashLength = 1` (the decoded digest length) where
`r` carries 5. -/
theorem roundtrip_length_fields_counterexample :
    (mismatchedLenRaw.Config.Mode = ModeArgon2d
        ∨ mismatchedLenRaw.Config.Mode = ModeArgon2i
        ∨ mismatchedLenRaw.Config.Mode = ModeArgon2id)
      ∧ 1 ≤ mismatchedLenRaw.Config.Version ∧ mismatchedLenRaw.Config.Version ≤ 255
      ∧ 0 < mismatchedLenRaw.Config.MemoryCost
      ∧ 0 < mismatchedLenRaw.Config.TimeCost
      ∧ 0 < mismatchedLenRaw.Config.Parallelism
      ∧ mismatchedLenRaw.Salt ≠ [] ∧ mismatchedLenRaw.Hash ≠ []
      ∧ Decode mismatchedLenRaw.Encode ≠ some mismatchedLenRaw := by
  decide

/-- C3 (counterexample): the proper non-empty prefix of the canonical valid
encoded string that keeps two bytes of the digest field decodes successfully
(as a record with a one-byte digest) instead of failing. -/
theorem decode_truncation_counterexample :
    canonRaw.Encode.take 45 ≠ [] ∧ canonRaw.Encode.take 45 ≠ canonRaw.Encode
      ∧ Decode (canonRaw.Encode.take 45)
        = some { Config := { HashLength := 1, SaltLength := 8, TimeCost := 1,
                             MemoryCost := 32768, Parallelism := 1,
                             Mode := ModeArgon2id, Version := 19 },
                 Salt := asciiBytes "saltsalt", Hash := [139] } := by
  refine ⟨by decide, by decide, by rfl⟩

/-- C4 (counterexample): with four bytes remaining and a seven-byte literal to
match, `parser.check` returns the comparison result 0 — the value that signals
a match — rather than a non-zero (non-matching) result, and does not advance. -/
theorem check_short_buffer_counterexample :
    (asciiBytes "$arg").length < decChunk1.length
      ∧ (Parser.mk (asciiBytes "$arg") 0).check decChunk1
        = (0, Parser.mk (asciiBytes "$arg") 0) := by
  decide

/-- C8 (counterexample): an input whose salt and digest spans consist only of
newline bytes decodes successfully — Go's base64 decoder skips CR and LF — so
the returned record has an empty salt and an empty digest. -/
theorem decode_newline_spans_counterexample :
    Decode (asciiBytes "$argon2id$v=19$m=1,t=1,p=1$\n\n$\n\n")
      = some { Config := { HashLength := 0, SaltLength := 0, TimeCost := 1,
                           MemoryCost := 1, Parallelism := 1,
                           Mode := ModeArgon2id, Version := 19 },
               Salt := [], Hash := [] } := by
  rfl

/-! ### Parser cursor invariants -/

/-- The digit loop consumes at most the bytes it was given. -/
theorem parseU32Aux_consumed :
    ∀ (l : List Nat) (r c r' c' : Nat),
      parseU32Aux l r c = some (r', c') → c' ≤ c + l.length := by
  intro l
  induction l with
  | nil =>
    intro r c r' c' h
    simp only [parseU32Aux, Option.some.injEq, Prod.mk.injEq] at h
    omega
  | cons d t ih =>
    intro r c r' c' h
    simp only [parseU32Aux] at h
    split at h
    · split at h
      · exact absurd h (by simp)
      · have := ih _ _ _ _ h
        simp only [List.length_cons]
        omega
    · simp only [Option.some.injEq, Prod.mk.injEq] at h
      simp only [List.length_cons]
      omega

/-- A found index lies inside the searched list. -/
theorem indexByte_lt_length :
    ∀ (l : List Nat) (d i : Nat), indexByte l d = some i → i < l.length := by
  intro l
  induction l with
  | nil => intro d i h; simp [indexByte] at h
  | cons c t ih =>
    intro d i h
    simp only [indexByte] at h
    split at h
    · simp only [Option.some.injEq] at h
      simp [← h]
    · rcases Option.map_eq_some'.mp h with ⟨j, hj, hji⟩
      have := ih _ _ hj
      simp only [List.length_cons]
      omega

/-- C10: every parser primitive (check, readByte, parseUint32, skipUntil,
readSlice, readRest) preserves the cursor invariant `0 ≤ off ≤ len(buf)`:
the buffer is untouched, the offset never decreases and is never advanced
past the end of the buffer. -/
theorem parser_primitives_invariant (p : Parser) (b : List Nat) (d : Nat)
    (h : p.off ≤ p.buf.length) :
    Advances p (p.check b).2 ∧ Advances p p.readByte.2 ∧ Advances p p.parseUint32.2
      ∧ Advances p (p.skipUntil d) ∧ Advances p (p.readSlice d).2
      ∧ Advances p p.readRest.2 := by
  have hd : (p.buf.drop p.off).length = p.buf.length - p.off := List.length_drop _ _
  refine ⟨?_, ?_, ?_, ?_, ?_, ?_⟩
  · unfold Parser.check
    dsimp only
    split
    next hle => exact ⟨rfl, by dsimp only; omega, by dsimp only; omega⟩
    next => exact ⟨rfl, Nat.le_refl _, h⟩
  · unfold Parser.readByte
    split
    next hlt => exact ⟨rfl, by dsimp only; omega, by dsimp only; omega⟩
    next => exact ⟨rfl, Nat.le_refl _, h⟩
  · unfold Parser.parseUint32
    split
    next => exact ⟨rfl, Nat.le_refl _, h⟩
    next r c heq =>
      have := parseU32Aux_consumed _ _ _ _ _ heq
      exact ⟨rfl, by dsimp only; omega, by dsimp only; omega⟩
  · unfold Parser.skipUntil
    split
    next idx heq =>
      have := indexByte_lt_length _ _ _ heq
      exact ⟨rfl, by dsimp only; omega, by dsimp only; omega⟩
    next => exact ⟨rfl, Nat.le_refl _, h⟩
  · unfold Parser.readSlice
    split
    next idx heq =>
      have := indexByte_lt_length _ _ _ heq
      split
      · exact ⟨rfl, by dsimp only; omega, by dsimp only; omega⟩
      · exact ⟨rfl, Nat.le_refl _, h⟩
    next => exact ⟨rfl, Nat.le_refl _, h⟩
  · unfold Parser.readRest
    split
    next hlt => exact ⟨rfl, by dsimp only; omega, by dsimp only; exact Nat.le_refl _⟩
    next => exact ⟨rfl, Nat.le_refl _, h⟩

/-- Witness for the cursor-invariant theorem at a concrete parser state. -/
theorem parser_primitives_invariant_witness :
    Advances (Parser.mk canonEncoded 2) ((Parser.mk canonEncoded 2).check decChunk2).2
      ∧ Advances (Parser.mk canonEncoded 2) (Parser.mk canonEncoded 2).readByte.2
      ∧ Advances (Parser.mk canonEncoded 2) (Parser.mk canonEncoded 2).parseUint32.2
      ∧ Advances (Parser.mk canonEncoded 2) ((Parser.mk canonEncoded 2).skipUntil 36)
      ∧ Advances (Parser.mk canonEncoded 2) ((Parser.mk canonEncoded 2).readSlice 36).2
      ∧ Advances (Parser.mk canonEncoded 2) (Parser.mk canonEncoded 2).readRest.2 :=
  parser_primitives_invariant (Parser.mk canonEncoded 2) decChunk2 36 (by decide)

/-! ### Invariants of successful decoding -/

/-- What the scan tail guarantees about any record it returns. -/
theorem decodeParams_some (mode : Nat) (pa : Parser) (raw : Raw)
    (h : decodeParams mode pa = some raw) :
    raw.Config.Mode = mode ∧ 1 ≤ raw.Config.Version ∧ raw.Config.Version ≤ 255
      ∧ raw.Config.SaltLength = raw.Salt.length
      ∧ raw.Config.HashLength = raw.Hash.length := by
  unfold decodeParams at h
  dsimp only at h
  split at h
  · exact absurd h (by simp)
  next hcond =>
    push_neg at hcond
    split at h
    next s hh _ _ =>
      split at h
      next salt hash _ _ =>
        simp only [Option.some.injEq] at h
        rw [← h]
        refine ⟨rfl, ?_, ?_, rfl, rfl⟩
        · have := hcond.2.1
          dsimp only
          omega
        · have := hcond.2.2.1
          dsimp only
          omega
      next => exact absurd h (by simp)
    next => exact absurd h (by simp)

/-- C8 (amended): whenever `Decode` succeeds, the returned record has a
variant equal to one of the three recognized modes, a version in [1,255],
and `SaltLength`/`HashLength` fields equal to the lengths of the decoded
salt and digest byte sequences.  (The original claim also asserted the
decoded salt and digest are non-empty; that part fails when a span consists
only of CR/LF bytes, which the base64 decoder skips.) -/
theorem decode_success_invariants (encoded : List Nat) (raw : Raw)
    (h : Decode encoded = some raw) :
    (raw.Config.Mode = ModeArgon2d ∨ raw.Config.Mode = ModeArgon2i
        ∨ raw.Config.Mode = ModeArgon2id)
      ∧ 1 ≤ raw.Config.Version ∧ raw.Config.Version ≤ 255
      ∧ raw.Config.SaltLength = raw.Salt.length
      ∧ raw.Config.HashLength = raw.Hash.length := by
  unfold Decode at h
  dsimp only at h
  split at h
  · exact absurd h (by simp)
  · split at h
    · split at h
      · split at h
        · have := decodeParams_some _ _ _ h
          exact ⟨Or.inr (Or.inr this.1), this.2⟩
        · exact absurd h (by simp)
      · split at h
        · have := decodeParams_some _ _ _ h
          exact ⟨Or.inr (Or.inl this.1), this.2⟩
        · have := decodeParams_some _ _ _ h
          exact ⟨Or.inl this.1, this.2⟩
    · split at h
      · have := decodeParams_some _ _ _ h
        exact ⟨Or.inl this.1, this.2⟩
      · exact absurd h (by simp)

/-- Witness for the successful-decode invariants at the canonical vector. -/
theorem decode_success_invariants_witness :
    (canonRaw.Config.Mode = ModeArgon2d ∨ canonRaw.Config.Mode = ModeArgon2i
        ∨ canonRaw.Config.Mode = ModeArgon2id)
      ∧ 1 ≤ canonRaw.Config.Version ∧ canonRaw.Config.Version ≤ 255
      ∧ canonRaw.Config.SaltLength = canonRaw.Salt.length
      ∧ canonRaw.Config.HashLength = canonRaw.Hash.length :=
  decode_success_invariants canonEncoded canonRaw (by rfl)

/-! ### The aggregated validity check -/

/-- `bytes.Compare` only returns -1, 0 or 1. -/
theorem bytesCompare_small :
    ∀ a b : List Nat, bytesCompare a b = -1 ∨ bytesCompare a b = 0 ∨ bytesCompare a b = 1 := by
  intro a
  induction a with
  | nil => intro b; cases b <;> simp [bytesCompare]
  | cons x xs ih =>
    intro b
    cases b with
    | nil => simp [bytesCompare]
    | cons y ys =>
      simp only [bytesCompare]
      split
      · simp
      · split
        · simp
        · exact ih ys

/-- `parser.check` only returns -1, 0 or 1. -/
theorem check_fst_small (p : Parser) (b : List Nat) :
    (p.check b).1 = -1 ∨ (p.check b).1 = 0 ∨ (p.check b).1 = 1 := by
  unfold Parser.check
  dsimp only
  split
  · exact bytesCompare_small _ _
  · simp

theorem ldiff_zero_left (n : Nat) : Nat.ldiff 0 n = 0 := by
  simp [Nat.ldiff, Nat.bitwise_zero_left]

/-- Bitwise or of comparison results: stays within {-1, 0, 1} and is zero
exactly when both operands are. -/
theorem lor_small (a b : Int) (ha : a = -1 ∨ a = 0 ∨ a = 1)
    (hb : b = -1 ∨ b = 0 ∨ b = 1) :
    (Int.lor a b = -1 ∨ Int.lor a b = 0 ∨ Int.lor a b = 1)
      ∧ (Int.lor a b = 0 ↔ a = 0 ∧ b = 0) := by
  have e1 : Int.lor (-1) (-1) = -1 := by
    show Int.negSucc (0 &&& 0) = -1
    rw [Nat.zero_and]
    rfl
  have e2 : Int.lor (-1) 0 = -1 := by
    show Int.negSucc (Nat.ldiff 0 0) = -1
    rw [ldiff_zero_left]
    rfl
  have e3 : Int.lor (-1) 1 = -1 := by
    show Int.negSucc (Nat.ldiff 0 1) = -1
    rw [ldiff_zero_left]
    rfl
  have e4 : Int.lor 0 (-1) = -1 := by
    show Int.negSucc (Nat.ldiff 0 0) = -1
    rw [ldiff_zero_left]
    rfl
  have e5 : Int.lor 1 (-1) = -1 := by
    show Int.negSucc (Nat.ldiff 0 1) = -1
    rw [ldiff_zero_left]
    rfl
  have e6 : Int.lor 0 0 = 0 := by
    show ((0 ||| 0 : Nat) : Int) = 0
    rw [Nat.zero_or]
    rfl
  have e7 : Int.lor 0 1 = 1 := by
    show ((0 ||| 1 : Nat) : Int) = 1
    rw [Nat.zero_or]
    rfl
  have e8 : Int.lor 1 0 = 1 := by
    show ((1 ||| 0 : Nat) : Int) = 1
    rw [Nat.or_zero]
    rfl
  have e9 : Int.lor 1 1 = 1 := by
    show ((1 ||| 1 : Nat) : Int) = 1
    rw [Nat.or_self]
    rfl
  rcases ha with rfl | rfl | rfl <;> rcases hb with rfl | rfl | rfl <;>
    simp only [e1, e2, e3, e4, e5, e6, e7, e8, e9] <;> decide

/-- The four accumulated comparison results are zero iff each one is. -/
theorem lor4_ne_zero_iff (a b c d : Int)
    (ha : a = -1 ∨ a = 0 ∨ a = 1) (hb : b = -1 ∨ b = 0 ∨ b = 1)
    (hc : c = -1 ∨ c = 0 ∨ c = 1) (hd : d = -1 ∨ d = 0 ∨ d = 1) :
    Int.lor (Int.lor (Int.lor a b) c) d ≠ 0 ↔ (a ≠ 0 ∨ b ≠ 0 ∨ c ≠ 0 ∨ d ≠ 0) := by
  have h1 := lor_small a b ha hb
  have h2 := lor_small _ c h1.1 hc
  have h3 := lor_small _ d h2.1 hd
  rw [ne_eq, h3.2, h2.2, h1.2]
  constructor
  · intro hnot
    by_contra hcon
    push_neg at hcon
    exact hnot ⟨⟨⟨hcon.1, hcon.2.1⟩, hcon.2.2.1⟩, hcon.2.2.2⟩
  · intro hd' habs
    rcases hd' with h' | h' | h' | h'
    · exact h' habs.1.1.1
    · exact h' habs.1.1.2
    · exact h' habs.1.2
    · exact h' habs.2

/-- C6: the terminal validation of `Decode` (the scan tail `decodeParams`)
fails if and only if some literal mismatched, or version is 0 or exceeds 255,
or memory cost, time cost or parallelism is 0, or the salt span or digest
span is absent, or base64-decoding the salt or the digest fails; moreover the
canonical string with any one numeric field rewritten to the literal "0"
is rejected. -/
theorem decode_terminal_validation (mode : Nat) (pa0 : Parser) :
    (let r1 := pa0.check decChunk2
     let r2 := r1.2.parseUint32
     let r3 := r2.2.check decChunk3
     let r4 := r3.2.parseUint32
     let r5 := r4.2.check decChunk4
     let r6 := r5.2.parseUint32
     let r7 := r6.2.check decChunk5
     let r8 := r7.2.parseUint32
     let pa9 := r8.2.skipUntil 36
     let r10 := pa9.readSlice 36
     let r11 := r10.2.readRest
     decodeParams mode pa0 = none ↔
       (r1.1 ≠ 0 ∨ r3.1 ≠ 0 ∨ r5.1 ≠ 0 ∨ r7.1 ≠ 0
         ∨ r2.1 = 0 ∨ 255 < r2.1 ∨ r4.1 = 0 ∨ r6.1 = 0 ∨ r8.1 = 0
         ∨ r10.1 = none ∨ r11.1 = none
         ∨ Option.bind r10.1 b64Decode = none ∨ Option.bind r11.1 b64Decode = none))
      ∧ Decode (asciiBytes "$argon2id$v=0$m=32768,t=1,p=1$c2FsdHNhbHQ$i3ZC") = none
      ∧ Decode (asciiBytes "$argon2id$v=19$m=0,t=1,p=1$c2FsdHNhbHQ$i3ZC") = none
      ∧ Decode (asciiBytes "$argon2id$v=19$m=32768,t=0,p=1$c2FsdHNhbHQ$i3ZC") = none
      ∧ Decode (asciiBytes "$argon2id$v=19$m=32768,t=1,p=0$c2FsdHNhbHQ$i3ZC") = none := by
  refine ⟨?_, by rfl, by rfl, by rfl, by rfl⟩
  unfold decodeParams
  dsimp only
  have hs1 := check_fst_small pa0 decChunk2
  generalize hR1 : pa0.check decChunk2 = R1 at *
  obtain ⟨o1, p1⟩ := R1
  dsimp only at *
  generalize hR2 : p1.parseUint32 = R2 at *
  obtain ⟨v, p2⟩ := R2
  dsimp only at *
  have hs2 := check_fst_small p2 decChunk3
  generalize hR3 : p2.check decChunk3 = R3 at *
  obtain ⟨o2, p3⟩ := R3
  dsimp only at *
  generalize hR4 : p3.parseUint32 = R4 at *
  obtain ⟨m, p4⟩ := R4
  dsimp only at *
  have hs3 := check_fst_small p4 decChunk4
  generalize hR5 : p4.check decChunk4 = R5 at *
  obtain ⟨o3, p5⟩ := R5
  dsimp only at *
  generalize hR6 : p5.parseUint32 = R6 at *
  obtain ⟨t, p6⟩ := R6
  dsimp only at *
  have hs4 := check_fst_small p6 decChunk5
  generalize hR7 : p6.check decChunk5 = R7 at *
  obtain ⟨o4, p7⟩ := R7
  dsimp only at *
  generalize hR8 : p7.parseUint32 = R8 at *
  obtain ⟨pp, p8⟩ := R8
  dsimp only at *
  generalize hR9 : p8.skipUntil 36 = p9 at *
  generalize hR10 : p9.readSlice 36 = R10 at *
  obtain ⟨s, p10⟩ := R10
  dsimp only at *
  generalize hR11 : p10.readRest = R11 at *
  obtain ⟨h, p11⟩ := R11
  dsimp only at *
  have hlor := lor4_ne_zero_iff o1 o2 o3 o4 hs1 hs2 hs3 hs4
  by_cases hcond : Int.lor (Int.lor (Int.lor o1 o2) o3) o4 ≠ 0 ∨ v = 0 ∨ 255 < v
      ∨ m = 0 ∨ t = 0 ∨ pp = 0 ∨ s = none ∨ h = none
  · rw [if_pos hcond]
    constructor
    · intro _
      rcases hcond with hok | hv | hv' | hm | ht | hp | hs | hh
      · rcases hlor.mp hok with h' | h' | h' | h'
        · exact Or.inl h'
        · exact Or.inr (Or.inl h')
        · exact Or.inr (Or.inr (Or.inl h'))
        · exact Or.inr (Or.inr (Or.inr (Or.inl h')))
      · exact Or.inr (Or.inr (Or.inr (Or.inr (Or.inl hv))))
      · exact Or.inr (Or.inr (Or.inr (Or.inr (Or.inr (Or.inl hv')))))
      · exact Or.inr (Or.inr (Or.inr (Or.inr (Or.inr (Or.inr (Or.inl hm))))))
      · exact Or.inr (Or.inr (Or.inr (Or.inr (Or.inr (Or.inr (Or.inr (Or.inl ht)))))))
      · exact Or.inr (Or.inr (Or.inr (Or.inr (Or.inr (Or.inr (Or.inr (Or.inr (Or.inl hp))))))))
      · exact Or.inr (Or.inr (Or.inr (Or.inr (Or.inr (Or.inr (Or.inr (Or.inr (Or.inr (Or.inl hs)))))))))
      · exact Or.inr (Or.inr (Or.inr (Or.inr (Or.inr (Or.inr (Or.inr (Or.inr (Or.inr (Or.inr (Or.inl hh))))))))))
    · intro _
      rfl
  · rw [if_neg hcond]
    push_neg at hcond
    obtain ⟨hok, hv0, hv255, hm, ht, hp, hsne, hhne⟩ := hcond
    have hall : ¬(o1 ≠ 0 ∨ o2 ≠ 0 ∨ o3 ≠ 0 ∨ o4 ≠ 0) := fun hd => (hlor.mpr hd) hok
    push_neg at hall
    obtain ⟨ho1, ho2, ho3, ho4⟩ := hall
    clear hlor
    obtain ⟨sv, rfl⟩ := Option.ne_none_iff_exists'.mp hsne
    obtain ⟨hv, rfl⟩ := Option.ne_none_iff_exists'.mp hhne
    dsimp only [Option.bind]
    cases hbs : b64Decode sv with
    | none =>
      constructor
      · intro _
        exact Or.inr (Or.inr (Or.inr (Or.inr (Or.inr (Or.inr (Or.inr (Or.inr (Or.inr
          (Or.inr (Or.inr (Or.inl rfl)))))))))))
      · intro _
        rfl
    | some salt =>
      cases hbh : b64Decode hv with
      | none =>
        constructor
        · intro _
          exact Or.inr (Or.inr (Or.inr (Or.inr (Or.inr (Or.inr (Or.inr (Or.inr (Or.inr
            (Or.inr (Or.inr (Or.inr rfl)))))))))))
        · intro _
          rfl
      | some hash =>
        constructor
        · intro habs
          exact absurd habs (by simp)
        · intro hrhs
          rcases hrhs with h' | h' | h' | h' | h' | h' | h' | h' | h' | h' | h' | h' | h'
          · exact absurd ho1 h'
          · exact absurd ho2 h'
          · exact absurd ho3 h'
          · exact absurd ho4 h'
          · exact absurd h' hv0
          · exact absurd h' (by omega)
          · exact absurd h' hm
          · exact absurd h' ht
          · exact absurd h' hp
          · simp at h'
          · simp at h'
          · simp at h'
          · simp at h' 

/-! ### Parser step lemmas -/

theorem drop_of_front {buf A X : List Nat} {off : Nat} (h : buf.drop off = A ++ X) :
    buf.drop (off + A.length) = X := by
  rw [← List.drop_drop, h, List.drop_left]

theorem bytesCompare_self : ∀ a : List Nat, bytesCompare a a = 0 := by
  intro a
  induction a with
  | nil => rfl
  | cons x xs ih => simp [bytesCompare, ih]

theorem bytesCompare_eq_zero_iff : ∀ a b : List Nat, bytesCompare a b = 0 ↔ a = b := by
  intro a
  induction a with
  | nil =>
    intro b
    cases b <;> simp [bytesCompare]
  | cons x xs ih =>
    intro b
    cases b with
    | nil => simp [bytesCompare]
    | cons y ys =>
      simp only [bytesCompare]
      split
      next hlt =>
        constructor
        · intro habs
          exact absurd habs (by decide)
        · intro heq
          injection heq with h1 _
          omega
      next hlt =>
        split
        next hgt =>
          constructor
          · intro habs
            exact absurd habs (by decide)
          · intro heq
            injection heq with h1 _
            omega
        next hgt =>
          rw [ih ys]
          constructor
          · intro h'
            rw [h']
            have : x = y := by omega
            rw [this]
          · intro h'
            cases h'
            rfl

theorem check_front (p : Parser) (b rest : List Nat) (h : p.buf.drop p.off = b ++ rest) :
    p.check b = (0, { p with off := p.off + b.length }) := by
  have hlen : (p.buf.drop p.off).length = p.buf.length - p.off := List.length_drop _ _
  rw [h, List.length_append] at hlen
  unfold Parser.check
  dsimp only
  by_cases hle : p.off + b.length ≤ p.buf.length
  · rw [if_pos hle, h, List.take_left, bytesCompare_self]
  · have hb : b.length = 0 := by omega
    rw [List.length_eq_zero] at hb
    subst hb
    rw [if_neg hle]
    rfl

theorem getD_of_drop : ∀ (l : List Nat) (n c : Nat) (t : List Nat),
    l.drop n = c :: t → l.getD n 0 = c := by
  intro l
  induction l with
  | nil =>
    intro n c t h
    rw [List.drop_nil] at h
    exact absurd h (by simp)
  | cons x xs ih =>
    intro n c t h
    cases n with
    | zero =>
      rw [List.drop_zero] at h
      cases h
      rw [List.getD_cons_zero]
    | succ n =>
      rw [List.drop_succ_cons] at h
      rw [List.getD_cons_succ]
      exact ih n c t h

theorem readByte_front (p : Parser) (c : Nat) (rest : List Nat)
    (h : p.buf.drop p.off = c :: rest) :
    p.readByte = (c, { p with off := p.off + 1 }) := by
  have hlen : (p.buf.drop p.off).length = p.buf.length - p.off := List.length_drop _ _
  rw [h] at hlen
  unfold Parser.readByte
  have hlt : p.off < p.buf.length := by
    simp only [List.length_cons] at hlen
    omega
  rw [if_pos hlt, getD_of_drop p.buf p.off c rest h]

theorem readByte_end (p : Parser) (h : p.buf.drop p.off = []) : p.readByte = (0, p) := by
  have hlen : (p.buf.drop p.off).length = p.buf.length - p.off := List.length_drop _ _
  rw [h] at hlen
  unfold Parser.readByte
  rw [if_neg (by simp at hlen; omega)]

theorem digitsVal_le : ∀ (ds : List Nat) (r : Nat), r ≤ digitsVal r ds := by
  intro ds
  induction ds with
  | nil => intro r; exact Nat.le_refl r
  | cons d t ih =>
    intro r
    calc r ≤ r * 10 + (d - 48) := by omega
    _ ≤ digitsVal (r * 10 + (d - 48)) t := ih _
    _ = digitsVal r (d :: t) := rfl

theorem digitsVal_append : ∀ (A B : List Nat) (r : Nat),
    digitsVal r (A ++ B) = digitsVal (digitsVal r A) B := by
  intro A
  induction A with
  | nil => intro B r; rfl
  | cons d t ih => intro B r; exact ih B (r * 10 + (d - 48))

theorem parseU32Aux_digits :
    ∀ (ds : List Nat) (rest : List Nat) (r c : Nat),
      (∀ d ∈ ds, 48 ≤ d ∧ d ≤ 57) → digitsVal r ds < 4294967296 →
      parseU32Aux (ds ++ rest) r c = parseU32Aux rest (digitsVal r ds) (c + ds.length) := by
  intro ds
  induction ds with
  | nil =>
    intro rest r c _ _
    rfl
  | cons d t ih =>
    intro rest r c hdig hbound
    have hd : 48 ≤ d ∧ d ≤ 57 := hdig d (by simp)
    have hstep : digitsVal r (d :: t) = digitsVal (r * 10 + (d - 48)) t := rfl
    have hle : r * 10 + (d - 48) ≤ digitsVal r (d :: t) := by
      rw [hstep]
      exact digitsVal_le t _
    have hmod : (r * 10 + (d - 48)) % 4294967296 = r * 10 + (d - 48) :=
      Nat.mod_eq_of_lt (by omega)
    show parseU32Aux (d :: (t ++ rest)) r c = _
    simp only [parseU32Aux]
    rw [if_pos hd]
    rw [hmod, if_neg (by omega)]
    rw [ih rest (r * 10 + (d - 48)) (c + 1) (fun x hx => hdig x (by simp [hx]))
      (by rw [← hstep]; exact hbound)]
    rw [hstep]
    congr 1
    simp only [List.length_cons]
    omega

theorem parseU32Aux_nondigit (x : Nat) (t : List Nat) (r c : Nat)
    (h : ¬(48 ≤ x ∧ x ≤ 57)) : parseU32Aux (x :: t) r c = some (r, c) := by
  simp only [parseU32Aux]
  rw [if_neg h]

theorem parseUint32_front (p : Parser) (ds X : List Nat)
    (hdig : ∀ d ∈ ds, 48 ≤ d ∧ d ≤ 57) (hbound : digitsVal 0 ds < 4294967296)
    (hX : X = [] ∨ ∃ x t, X = x :: t ∧ ¬(48 ≤ x ∧ x ≤ 57))
    (h : p.buf.drop p.off = ds ++ X) :
    p.parseUint32 = (digitsVal 0 ds, { p with off := p.off + ds.length }) := by
  unfold Parser.parseUint32
  rw [h, parseU32Aux_digits ds X 0 0 hdig hbound]
  rcases hX with rfl | ⟨x, t, rfl, hx⟩
  · show (digitsVal 0 ds, { p with off := p.off + (0 + ds.length) }) = _
    rw [Nat.zero_add]
  · rw [parseU32Aux_nondigit x t _ _ hx]
    show (digitsVal 0 ds, { p with off := p.off + (0 + ds.length) }) = _
    rw [Nat.zero_add]

theorem indexByte_found : ∀ (A : List Nat) (rest : List Nat) (d : Nat),
    (∀ a ∈ A, a ≠ d) → indexByte (A ++ d :: rest) d = some A.length := by
  intro A
  induction A with
  | nil => intro rest d _; simp [indexByte]
  | cons x xs ih =>
    intro rest d hA
    simp only [List.cons_append, indexByte, List.append_eq]
    rw [if_neg (hA x (by simp)), ih rest d (fun a ha => hA a (by simp [ha]))]
    rfl

theorem indexByte_absent : ∀ (A : List Nat) (d : Nat),
    (∀ a ∈ A, a ≠ d) → indexByte A d = none := by
  intro A
  induction A with
  | nil => intro d _; rfl
  | cons x xs ih =>
    intro d hA
    simp only [indexByte]
    rw [if_neg (hA x (by simp)), ih d (fun a ha => hA a (by simp [ha]))]
    rfl

theorem skipUntil_front (p : Parser) (A rest : List Nat) (d : Nat)
    (hA : ∀ a ∈ A, a ≠ d) (h : p.buf.drop p.off = A ++ d :: rest) :
    p.skipUntil d = { p with off := p.off + A.length + 1 } := by
  unfold Parser.skipUntil
  rw [h, indexByte_found A rest d hA]

theorem skipUntil_absent (p : Parser) (d : Nat)
    (hA : ∀ a ∈ p.buf.drop p.off, a ≠ d) : p.skipUntil d = p := by
  unfold Parser.skipUntil
  rw [indexByte_absent _ d hA]

theorem readSlice_front (p : Parser) (A rest : List Nat) (d : Nat)
    (hA : ∀ a ∈ A, a ≠ d) (hne : A ≠ [])
    (h : p.buf.drop p.off = A ++ d :: rest) :
    p.readSlice d = (some A, { p with off := p.off + A.length + 1 }) := by
  unfold Parser.readSlice
  rw [h, indexByte_found A rest d hA]
  have hpos : 0 < A.length := by
    cases A
    · exact absurd rfl hne
    · simp
  dsimp only
  rw [if_pos hpos, List.take_left]

theorem readSlice_absent (p : Parser) (d : Nat)
    (hA : ∀ a ∈ p.buf.drop p.off, a ≠ d) : p.readSlice d = (none, p) := by
  unfold Parser.readSlice
  rw [indexByte_absent _ d hA]

theorem readRest_front (p : Parser) (h : p.buf.drop p.off ≠ []) :
    p.readRest = (some (p.buf.drop p.off), { p with off := p.buf.length }) := by
  have hlen : (p.buf.drop p.off).length = p.buf.length - p.off := List.length_drop _ _
  unfold Parser.readRest
  have hlt : p.off < p.buf.length := by
    rcases Nat.lt_or_ge p.off p.buf.length with h' | h'
    · exact h'
    · exact absurd (List.drop_eq_nil_of_le h') h
  rw [if_pos hlt]

theorem readRest_end (p : Parser) (h : p.buf.drop p.off = []) :
    p.readRest = (none, p) := by
  have hlen : (p.buf.drop p.off).length = p.buf.length - p.off := List.length_drop _ _
  rw [h] at hlen
  unfold Parser.readRest
  rw [if_neg (by simp at hlen; omega)]

/-! ### Decimal digit lemmas -/

theorem decDigitsAux_fuel : ∀ (n f f' : Nat) (acc : List Nat), n < f → n < f' →
    decDigitsAux f n acc = decDigitsAux f' n acc := by
  intro n
  induction n using Nat.strong_induction_on with
  | _ n ih =>
    intro f f' acc hf hf'
    match f, f', hf, hf' with
    | f + 1, f' + 1, hf, hf' =>
      simp only [decDigitsAux]
      split
      · rfl
      · next hge =>
        have hlt : n / 10 < n := Nat.div_lt_self (by omega) (by omega)
        exact ih (n / 10) hlt f f' _ (by omega) (by omega)

theorem decDigitsAux_acc : ∀ (n f : Nat) (acc : List Nat), n < f →
    decDigitsAux f n acc = decDigitsAux f n [] ++ acc := by
  intro n
  induction n using Nat.strong_induction_on with
  | _ n ih =>
    intro f acc hf
    match f, hf with
    | f + 1, hf =>
      simp only [decDigitsAux]
      split
      · rfl
      · next hge =>
        have hlt : n / 10 < n := Nat.div_lt_self (by omega) (by omega)
        rw [ih (n / 10) hlt f ((48 + n % 10) :: acc) (by omega),
          ih (n / 10) hlt f [48 + n % 10] (by omega), List.append_assoc]
        rfl

theorem decDigits_lt (n : Nat) (h : n < 10) : decDigits n = [48 + n] := by
  unfold decDigits decDigitsAux
  rw [if_pos h]

theorem decDigits_ge (n : Nat) (h : 10 ≤ n) :
    decDigits n = decDigits (n / 10) ++ [48 + n % 10] := by
  have hlt : n / 10 < n := Nat.div_lt_self (by omega) (by omega)
  show decDigitsAux (n + 1) n [] = _
  rw [show decDigitsAux (n + 1) n [] = decDigitsAux n (n / 10) ((48 + n % 10) :: [])
    from by simp only [decDigitsAux]; rw [if_neg (by omega)]]
  rw [decDigitsAux_fuel (n / 10) n (n / 10 + 1) _ (by omega) (by omega)]
  rw [decDigitsAux_acc (n / 10) (n / 10 + 1) _ (by omega)]
  rfl

theorem decDigits_mem : ∀ (n : Nat), ∀ d ∈ decDigits n, 48 ≤ d ∧ d ≤ 57 := by
  intro n
  induction n using Nat.strong_induction_on with
  | _ n ih =>
    intro d hd
    by_cases h : n < 10
    · rw [decDigits_lt n h] at hd
      simp at hd
      omega
    · rw [decDigits_ge n (by omega)] at hd
      rw [List.mem_append] at hd
      rcases hd with hd | hd
      · exact ih (n / 10) (Nat.div_lt_self (by omega) (by omega)) d hd
      · simp at hd
        have := Nat.mod_lt n (show 0 < 10 by omega)
        omega

theorem decDigits_ne_nil (n : Nat) : decDigits n ≠ [] := by
  by_cases h : n < 10
  · rw [decDigits_lt n h]
    simp
  · rw [decDigits_ge n (by omega)]
    simp

theorem digitsVal_decDigits : ∀ n : Nat, digitsVal 0 (decDigits n) = n := by
  intro n
  induction n using Nat.strong_induction_on with
  | _ n ih =>
    by_cases h : n < 10
    · rw [decDigits_lt n h]
      show 0 * 10 + (48 + n - 48) = n
      omega
    · rw [decDigits_ge n (by omega), digitsVal_append,
        ih (n / 10) (Nat.div_lt_self (by omega) (by omega))]
      show n / 10 * 10 + (48 + n % 10 - 48) = n
      omega

theorem digitsVal_front_le (n : Nat) (A B : List Nat) (h : decDigits n = A ++ B) :
    digitsVal 0 A ≤ n := by
  have h1 : digitsVal 0 (A ++ B) = n := by rw [← h]; exact digitsVal_decDigits n
  rw [digitsVal_append] at h1
  have := digitsVal_le B (digitsVal 0 A)
  omega

/-! ### Encoding with an unrecognized mode -/

/-- After the `$argon2` literal, a decimal digit (as produced where the
variant token was omitted) fails the variant disambiguation. -/
theorem decode_digit_after_argon2 (d : Nat) (Y : List Nat)
    (h48 : 48 ≤ d) (h57 : d ≤ 57) : Decode (decChunk1 ++ d :: Y) = none := by
  unfold Decode
  dsimp only
  have e1 : (Parser.mk (decChunk1 ++ d :: Y) 0).check decChunk1
      = (0, Parser.mk (decChunk1 ++ d :: Y) 7) :=
    check_front _ decChunk1 (d :: Y) (by rw [List.drop_zero])
  rw [e1]
  dsimp only
  rw [if_neg (show ¬((0 : Int) ≠ 0) by simp)]
  have e2 : (Parser.mk (decChunk1 ++ d :: Y) 7).readByte
      = (d, Parser.mk (decChunk1 ++ d :: Y) 8) :=
    readByte_front _ d Y rfl
  rw [e2]
  dsimp only
  rw [if_neg (show ¬(d = 105) by omega), if_neg (show ¬(d = 100) by omega)]

/-- C9: for every record whose mode is not one of the three recognized modes,
`Encode` still returns (no failure path), but the output omits both the
variant token and the `$v=` separator — the buffer is `$argon2` immediately
followed by the decimal version digits — and `Decode` of that output fails. -/
theorem encode_unknown_mode (r : Raw)
    (h0 : r.Config.Mode ≠ ModeArgon2d) (h1 : r.Config.Mode ≠ ModeArgon2i)
    (h2 : r.Config.Mode ≠ ModeArgon2id) :
    r.Encode = decChunk1 ++ decDigits r.Config.Version ++ decChunk3
        ++ decDigits r.Config.MemoryCost ++ decChunk4 ++ decDigits r.Config.TimeCost
        ++ decChunk5 ++ decDigits r.Config.Parallelism
        ++ [36] ++ b64Encode r.Salt ++ [36] ++ b64Encode r.Hash
      ∧ Decode r.Encode = none := by
  have henc : r.Encode = decChunk1 ++ decDigits r.Config.Version ++ decChunk3
      ++ decDigits r.Config.MemoryCost ++ decChunk4 ++ decDigits r.Config.TimeCost
      ++ decChunk5 ++ decDigits r.Config.Parallelism
      ++ [36] ++ b64Encode r.Salt ++ [36] ++ b64Encode r.Hash := by
    unfold Raw.Encode
    dsimp only
    rw [if_neg h0, if_neg h1, if_neg h2]
    simp
  refine ⟨henc, ?_⟩
  rw [henc]
  simp only [List.append_assoc]
  obtain ⟨d, t, hD⟩ : ∃ d t, decDigits r.Config.Version = d :: t := by
    cases hD : decDigits r.Config.Version with
    | nil => exact absurd hD (decDigits_ne_nil _)
    | cons d t => exact ⟨d, t, rfl⟩
  have hdig : 48 ≤ d ∧ d ≤ 57 := decDigits_mem _ d (by rw [hD]; simp)
  rw [hD, List.cons_append]
  exact decode_digit_after_argon2 d _ hdig.1 hdig.2

/-- Witness for the unknown-mode theorem at a concrete mode-3 record. -/
theorem encode_unknown_mode_witness :
    unknownModeRaw.Encode = decChunk1 ++ decDigits unknownModeRaw.Config.Version
        ++ decChunk3 ++ decDigits unknownModeRaw.Config.MemoryCost
        ++ decChunk4 ++ decDigits unknownModeRaw.Config.TimeCost
        ++ decChunk5 ++ decDigits unknownModeRaw.Config.Parallelism
        ++ [36] ++ b64Encode unknownModeRaw.Salt ++ [36] ++ b64Encode unknownModeRaw.Hash
      ∧ Decode unknownModeRaw.Encode = none :=
  encode_unknown_mode unknownModeRaw (by decide) (by decide) (by decide)

/-! ### Base64 lemmas -/

theorem decodeMap_encChar : ∀ x : Nat, x < 64 → decodeMap (encChar x) = x := by decide

theorem encChar_ne_36 : ∀ x : Nat, x < 64 → encChar x ≠ 36 := by decide

theorem b64Encode_alphabet : ∀ (n : Nat) (l : List Nat), l.length ≤ n →
    (∀ b ∈ l, b < 256) → ∀ y ∈ b64Encode l, ∃ x, x < 64 ∧ y = encChar x := by
  intro n
  induction n with
  | zero =>
    intro l hl _ y hy
    have hlen0 : l.length = 0 := by omega
    rw [List.length_eq_zero.mp hlen0] at hy
    exact absurd hy (by simp [b64Encode])
  | succ n ih =>
    intro l hl hb y hy
    match l with
    | [] => exact absurd hy (by simp [b64Encode])
    | [a] =>
      have ha : a < 256 := hb a (by simp)
      simp only [b64Encode, List.mem_cons, List.not_mem_nil, or_false] at hy
      rcases hy with rfl | rfl
      · exact ⟨a / 4, by omega, rfl⟩
      · exact ⟨a % 4 * 16, by omega, rfl⟩
    | [a, b] =>
      have ha : a < 256 := hb a (by simp)
      have hbb : b < 256 := hb b (by simp)
      simp only [b64Encode, List.mem_cons, List.not_mem_nil, or_false] at hy
      rcases hy with rfl | rfl | rfl
      · exact ⟨a / 4, by omega, rfl⟩
      · exact ⟨a % 4 * 16 + b / 16, by omega, rfl⟩
      · exact ⟨b % 16 * 4, by omega, rfl⟩
    | a :: b :: c :: rest =>
      have ha : a < 256 := hb a (by simp)
      have hbb : b < 256 := hb b (by simp)
      have hc : c < 256 := hb c (by simp)
      simp only [b64Encode, List.mem_cons] at hy
      rcases hy with rfl | rfl | rfl | rfl | hy
      · exact ⟨a / 4, by omega, rfl⟩
      · exact ⟨a % 4 * 16 + b / 16, by omega, rfl⟩
      · exact ⟨b % 16 * 4 + c / 64, by omega, rfl⟩
      · exact ⟨c % 64, by omega, rfl⟩
      · exact ih rest (by simp at hl; omega) (fun x hx => hb x (by simp [hx])) y hy

theorem b64Encode_ne_36 (l : List Nat) (hb : ∀ b ∈ l, b < 256) :
    ∀ y ∈ b64Encode l, y ≠ 36 := by
  intro y hy
  obtain ⟨x, hx, rfl⟩ := b64Encode_alphabet l.length l (Nat.le_refl _) hb y hy
  exact encChar_ne_36 x hx

theorem b64Encode_ne_nil (l : List Nat) (h : l ≠ []) : b64Encode l ≠ [] := by
  match l with
  | [] => exact absurd rfl h
  | [a] => simp [b64Encode]
  | [a, b] => simp [b64Encode]
  | a :: b :: c :: rest => simp [b64Encode]

theorem b64DecodeAux_step (acc : List Nat) (x : Nat) (hx : x < 64) (rest : List Nat)
    (hlen : acc.length ≤ 2) :
    b64DecodeAux acc (encChar x :: rest) = b64DecodeAux (acc ++ [x]) rest := by
  simp only [b64DecodeAux]
  rw [decodeMap_encChar x hx, if_neg (by omega)]
  match acc, hlen with
  | [], _ => rfl
  | [s0], _ => rfl
  | [s0, s1], _ => rfl

theorem b64DecodeAux_emit (s0 s1 s2 x : Nat) (hx : x < 64) (rest : List Nat) :
    b64DecodeAux [s0, s1, s2] (encChar x :: rest)
      = (b64DecodeAux [] rest).map
          (fun bs => b64Byte0 s0 s1 :: b64Byte1 s1 s2 :: b64Byte2 s2 x :: bs) := by
  simp only [b64DecodeAux]
  rw [decodeMap_encChar x hx, if_neg (by omega)]

theorem b64_roundtrip_aux : ∀ (n : Nat) (l : List Nat), l.length ≤ n →
    (∀ b ∈ l, b < 256) → b64DecodeAux [] (b64Encode l) = some l := by
  intro n
  induction n with
  | zero =>
    intro l hl _
    have hlen0 : l.length = 0 := by omega
    rw [List.length_eq_zero.mp hlen0]
    rfl
  | succ n ih =>
    intro l hl hb
    match l with
    | [] => rfl
    | [a] =>
      have ha : a < 256 := hb a (by simp)
      show b64DecodeAux [] (encChar (a / 4) :: encChar (a % 4 * 16) :: []) = some [a]
      rw [b64DecodeAux_step [] (a / 4) (by omega) _ (by simp)]
      simp only [List.nil_append, List.cons_append]
      rw [b64DecodeAux_step [a / 4] (a % 4 * 16) (by omega) _ (by simp)]
      simp only [List.nil_append, List.cons_append]
      show some [b64Byte0 (a / 4) (a % 4 * 16)] = some [a]
      unfold b64Byte0
      congr 2
      omega
    | [a, b] =>
      have ha : a < 256 := hb a (by simp)
      have hbb : b < 256 := hb b (by simp)
      show b64DecodeAux [] (encChar (a / 4) :: encChar (a % 4 * 16 + b / 16)
          :: encChar (b % 16 * 4) :: []) = some [a, b]
      rw [b64DecodeAux_step [] (a / 4) (by omega) _ (by simp)]
      simp only [List.nil_append, List.cons_append]
      rw [b64DecodeAux_step [a / 4] (a % 4 * 16 + b / 16) (by omega) _ (by simp)]
      simp only [List.nil_append, List.cons_append]
      rw [b64DecodeAux_step [a / 4, a % 4 * 16 + b / 16] (b % 16 * 4) (by omega) _ (by simp)]
      simp only [List.nil_append, List.cons_append]
      show some [b64Byte0 (a / 4) (a % 4 * 16 + b / 16),
        b64Byte1 (a % 4 * 16 + b / 16) (b % 16 * 4)] = some [a, b]
      unfold b64Byte0 b64Byte1
      congr 3
      · omega
      · omega
    | a :: b :: c :: rest =>
      have ha : a < 256 := hb a (by simp)
      have hbb : b < 256 := hb b (by simp)
      have hc : c < 256 := hb c (by simp)
      show b64DecodeAux [] (encChar (a / 4) :: encChar (a % 4 * 16 + b / 16)
          :: encChar (b % 16 * 4 + c / 64) :: encChar (c % 64) :: b64Encode rest)
        = some (a :: b :: c :: rest)
      rw [b64DecodeAux_step [] (a / 4) (by omega) _ (by simp)]
      simp only [List.nil_append, List.cons_append]
      rw [b64DecodeAux_step [a / 4] (a % 4 * 16 + b / 16) (by omega) _ (by simp)]
      simp only [List.nil_append, List.cons_append]
      rw [b64DecodeAux_step [a / 4, a % 4 * 16 + b / 16] (b % 16 * 4 + c / 64)
        (by omega) _ (by simp)]
      simp only [List.nil_append, List.cons_append]
      show b64DecodeAux [a / 4, a % 4 * 16 + b / 16, b % 16 * 4 + c / 64]
          (encChar (c % 64) :: b64Encode rest) = _
      rw [b64DecodeAux_emit _ _ _ (c % 64) (by omega) _]
      rw [ih rest (by simp at hl; omega) (fun y hy => hb y (by simp [hy]))]
      show some (b64Byte0 (a / 4) (a % 4 * 16 + b / 16)
          :: b64Byte1 (a % 4 * 16 + b / 16) (b % 16 * 4 + c / 64)
          :: b64Byte2 (b % 16 * 4 + c / 64) (c % 64) :: rest) = _
      unfold b64Byte0 b64Byte1 b64Byte2
      congr 2
      · omega
      congr 1
      · omega
      congr 1
      omega

/-- Round trip of the unpadded standard base64 codec on byte lists. -/
theorem b64_roundtrip (l : List Nat) (hb : ∀ b ∈ l, b < 256) :
    b64Decode (b64Encode l) = some l :=
  b64_roundtrip_aux l.length l (Nat.le_refl _) hb

/-! ### The decode happy path -/

/-- Partial evaluation of the scan tail on a buffer whose remainder from the
current offset is exactly `v=<v>$m=<m>,t=<t>,p=<p>$<Bs>$<Bh>` for positive
in-range numeric fields, a non-empty `$`-free salt span `Bs` and a non-empty
digest span `Bh`: the result is determined by the base64 decodings of the two
spans. -/
theorem decodeParams_scan (mode v m t p : Nat) (Bs Bh BUF : List Nat) (OFF : Nat)
    (hv1 : 1 ≤ v) (hv255 : v ≤ 255)
    (hm : 0 < m) (hmB : m < 4294967296)
    (ht : 0 < t) (htB : t < 4294967296)
    (hp : 0 < p) (hpB : p < 4294967296)
    (hBs36 : ∀ a ∈ Bs, a ≠ 36) (hBsne : Bs ≠ []) (hBhne : Bh ≠ [])
    (hdrop : BUF.drop OFF = decChunk2 ++ (decDigits v ++ (decChunk3 ++ (decDigits m
      ++ (decChunk4 ++ (decDigits t ++ (decChunk5 ++ (decDigits p
      ++ (36 :: (Bs ++ (36 :: Bh))))))))))) :
    decodeParams mode (Parser.mk BUF OFF)
      = (match b64Decode Bs, b64Decode Bh with
          | some salt, some hash =>
            some { Config := { HashLength := hash.length, SaltLength := salt.length,
                               TimeCost := t, MemoryCost := m, Parallelism := p,
                               Mode := mode, Version := v },
                   Salt := salt, Hash := hash }
          | _, _ => none) := by
  have d1 := drop_of_front hdrop
  have d2 := drop_of_front d1
  have d3 := drop_of_front d2
  have d4 := drop_of_front d3
  have d5 := drop_of_front d4
  have d6 := drop_of_front d5
  have d7 := drop_of_front d6
  have d8 := drop_of_front d7
  have e1 : (Parser.mk BUF OFF).check decChunk2
      = (0, Parser.mk BUF (OFF + decChunk2.length)) :=
    check_front _ _ _ hdrop
  have e2 : (Parser.mk BUF (OFF + decChunk2.length)).parseUint32
      = (v, Parser.mk BUF (OFF + decChunk2.length + (decDigits v).length)) := by
    have h' := parseUint32_front (Parser.mk BUF (OFF + decChunk2.length))
      (decDigits v) _ (decDigits_mem v)
      (by rw [digitsVal_decDigits]; omega) (Or.inr ⟨36, _, rfl, by decide⟩) d1
    rw [digitsVal_decDigits] at h'
    exact h'
  have e3 : (Parser.mk BUF (OFF + decChunk2.length + (decDigits v).length)).check decChunk3
      = (0, Parser.mk BUF (OFF + decChunk2.length + (decDigits v).length
          + decChunk3.length)) :=
    check_front _ _ _ d2
  have e4 : (Parser.mk BUF (OFF + decChunk2.length + (decDigits v).length
        + decChunk3.length)).parseUint32
      = (m, Parser.mk BUF (OFF + decChunk2.length + (decDigits v).length
          + decChunk3.length + (decDigits m).length)) := by
    have h' := parseUint32_front (Parser.mk BUF (OFF + decChunk2.length
        + (decDigits v).length + decChunk3.length))
      (decDigits m) _ (decDigits_mem m)
      (by rw [digitsVal_decDigits]; omega) (Or.inr ⟨44, _, rfl, by decide⟩) d3
    rw [digitsVal_decDigits] at h'
    exact h'
  have e5 : (Parser.mk BUF (OFF + decChunk2.length + (decDigits v).length
        + decChunk3.length + (decDigits m).length)).check decChunk4
      = (0, Parser.mk BUF (OFF + decChunk2.length + (decDigits v).length
          + decChunk3.length + (decDigits m).length + decChunk4.length)) :=
    check_front _ _ _ d4
  have e6 : (Parser.mk BUF (OFF + decChunk2.length + (decDigits v).length
        + decChunk3.length + (decDigits m).length + decChunk4.length)).parseUint32
      = (t, Parser.mk BUF (OFF + decChunk2.length + (decDigits v).length
          + decChunk3.length + (decDigits m).length + decChunk4.length
          + (decDigits t).length)) := by
    have h' := parseUint32_front (Parser.mk BUF (OFF + decChunk2.length
        + (decDigits v).length + decChunk3.length + (decDigits m).length
        + decChunk4.length))
      (decDigits t) _ (decDigits_mem t)
      (by rw [digitsVal_decDigits]; omega) (Or.inr ⟨44, _, rfl, by decide⟩) d5
    rw [digitsVal_decDigits] at h'
    exact h'
  have e7 : (Parser.mk BUF (OFF + decChunk2.length + (decDigits v).length
        + decChunk3.length + (decDigits m).length + decChunk4.length
        + (decDigits t).length)).check decChunk5
      = (0, Parser.mk BUF (OFF + decChunk2.length + (decDigits v).length
          + decChunk3.length + (decDigits m).length + decChunk4.length
          + (decDigits t).length + decChunk5.length)) :=
    check_front _ _ _ d6
  have e8 : (Parser.mk BUF (OFF + decChunk2.length + (decDigits v).length
        + decChunk3.length + (decDigits m).length + decChunk4.length
        + (decDigits t).length + decChunk5.length)).parseUint32
      = (p, Parser.mk BUF (OFF + decChunk2.length + (decDigits v).length
          + decChunk3.length + (decDigits m).length + decChunk4.length
          + (decDigits t).length + decChunk5.length + (decDigits p).length)) := by
    have h' := parseUint32_front (Parser.mk BUF (OFF + decChunk2.length
        + (decDigits v).length + decChunk3.length + (decDigits m).length
        + decChunk4.length + (decDigits t).length + decChunk5.length))
      (decDigits p) _ (decDigits_mem p)
      (by rw [digitsVal_decDigits]; omega) (Or.inr ⟨36, _, rfl, by decide⟩) d7
    rw [digitsVal_decDigits] at h'
    exact h'
  have d9 : BUF.drop (OFF + decChunk2.length + (decDigits v).length
        + decChunk3.length + (decDigits m).length + decChunk4.length
        + (decDigits t).length + decChunk5.length + (decDigits p).length + 1)
      = Bs ++ (36 :: Bh) :=
    drop_of_front (A := [36]) d8
  have d10 := drop_of_front d9
  have d11 : BUF.drop (OFF + decChunk2.length + (decDigits v).length
        + decChunk3.length + (decDigits m).length + decChunk4.length
        + (decDigits t).length + decChunk5.length + (decDigits p).length + 1
        + (Bs).length + 1)
      = Bh :=
    drop_of_front (A := [36]) d10
  have e9 : (Parser.mk BUF (OFF + decChunk2.length + (decDigits v).length
        + decChunk3.length + (decDigits m).length + decChunk4.length
        + (decDigits t).length + decChunk5.length + (decDigits p).length)).skipUntil 36
      = Parser.mk BUF (OFF + decChunk2.length + (decDigits v).length
          + decChunk3.length + (decDigits m).length + decChunk4.length
          + (decDigits t).length + decChunk5.length + (decDigits p).length + 1) :=
    skipUntil_front _ [] _ 36 (by simp) d8
  have e10 : (Parser.mk BUF (OFF + decChunk2.length + (decDigits v).length
        + decChunk3.length + (decDigits m).length + decChunk4.length
        + (decDigits t).length + decChunk5.length + (decDigits p).length
        + 1)).readSlice 36
      = (some (Bs), Parser.mk BUF (OFF + decChunk2.length
          + (decDigits v).length + decChunk3.length + (decDigits m).length
          + decChunk4.length + (decDigits t).length + decChunk5.length
          + (decDigits p).length + 1 + (Bs).length + 1)) :=
    readSlice_front _ _ _ 36 hBs36 hBsne d9
  have e11 : (Parser.mk BUF (OFF + decChunk2.length + (decDigits v).length
        + decChunk3.length + (decDigits m).length + decChunk4.length
        + (decDigits t).length + decChunk5.length + (decDigits p).length + 1
        + (Bs).length + 1)).readRest
      = (some (Bh), Parser.mk BUF BUF.length) := by
    have h' := readRest_front (Parser.mk BUF (OFF + decChunk2.length
        + (decDigits v).length + decChunk3.length + (decDigits m).length
        + decChunk4.length + (decDigits t).length + decChunk5.length
        + (decDigits p).length + 1 + (Bs).length + 1))
      (by rw [d11]; exact hBhne)
    rw [d11] at h'
    exact h'
  unfold decodeParams
  dsimp only
  rw [e1]
  dsimp only
  rw [e2]
  dsimp only
  rw [e3]
  dsimp only
  rw [e4]
  dsimp only
  rw [e5]
  dsimp only
  rw [e6]
  dsimp only
  rw [e7]
  dsimp only
  rw [e8]
  dsimp only
  rw [e9, e10]
  dsimp only
  rw [e11]
  dsimp only
  rw [if_neg (by
    push_neg
    refine ⟨by decide, by omega, by omega, by omega, by omega, by omega, by simp, by simp⟩)]

/-- Running the scan tail on a buffer whose remainder from the current offset
is exactly `v=<v>$m=<m>,t=<t>,p=<p>$<base64 salt>$<base64 hash>` yields the
corresponding record. -/
theorem decodeParams_happy (mode v m t p : Nat) (salt hash BUF : List Nat) (OFF : Nat)
    (hv1 : 1 ≤ v) (hv255 : v ≤ 255)
    (hm : 0 < m) (hmB : m < 4294967296)
    (ht : 0 < t) (htB : t < 4294967296)
    (hp : 0 < p) (hpB : p < 4294967296)
    (hsne : salt ≠ []) (hsb : ∀ b ∈ salt, b < 256)
    (hhne : hash ≠ []) (hhb : ∀ b ∈ hash, b < 256)
    (hdrop : BUF.drop OFF = decChunk2 ++ (decDigits v ++ (decChunk3 ++ (decDigits m
      ++ (decChunk4 ++ (decDigits t ++ (decChunk5 ++ (decDigits p
      ++ (36 :: (b64Encode salt ++ (36 :: b64Encode hash))))))))))) :
    decodeParams mode (Parser.mk BUF OFF)
      = some { Config := { HashLength := hash.length, SaltLength := salt.length,
                           TimeCost := t, MemoryCost := m, Parallelism := p,
                           Mode := mode, Version := v },
               Salt := salt, Hash := hash } := by
  rw [decodeParams_scan mode v m t p (b64Encode salt) (b64Encode hash) BUF OFF
    hv1 hv255 hm hmB ht htB hp hpB (b64Encode_ne_36 salt hsb)
    (b64Encode_ne_nil salt hsne) (b64Encode_ne_nil hash hhne) hdrop]
  rw [b64_roundtrip salt hsb, b64_roundtrip hash hhb]

/-- Variant dispatch: a buffer `$argon2id$` followed by `TAIL`. -/
theorem decode_variant_id (TAIL : List Nat) (RES : Option Raw)
    (h : ∀ BUF OFF, BUF.drop OFF = TAIL → decodeParams 2 (Parser.mk BUF OFF) = RES) :
    Decode (decChunk1 ++ (105 :: (100 :: (36 :: TAIL)))) = RES := by
  have s1 : (Parser.mk (decChunk1 ++ (105 :: (100 :: (36 :: TAIL)))) 0).check decChunk1
      = (0, Parser.mk (decChunk1 ++ (105 :: (100 :: (36 :: TAIL)))) 7) :=
    check_front _ _ _ rfl
  have s2 : (Parser.mk (decChunk1 ++ (105 :: (100 :: (36 :: TAIL)))) 7).readByte
      = (105, Parser.mk (decChunk1 ++ (105 :: (100 :: (36 :: TAIL)))) 8) :=
    readByte_front _ _ _ rfl
  have s3 : (Parser.mk (decChunk1 ++ (105 :: (100 :: (36 :: TAIL)))) 8).readByte
      = (100, Parser.mk (decChunk1 ++ (105 :: (100 :: (36 :: TAIL)))) 9) :=
    readByte_front _ _ _ rfl
  have s4 : (Parser.mk (decChunk1 ++ (105 :: (100 :: (36 :: TAIL)))) 9).readByte
      = (36, Parser.mk (decChunk1 ++ (105 :: (100 :: (36 :: TAIL)))) 10) :=
    readByte_front _ _ _ rfl
  unfold Decode
  dsimp only
  rw [s1]
  dsimp only
  rw [if_neg (show ¬((0 : Int) ≠ 0) by simp)]
  rw [s2]
  dsimp only
  rw [s3]
  dsimp only
  rw [if_pos rfl, if_pos rfl, s4]
  dsimp only
  rw [if_pos rfl]
  exact h _ 10 rfl

/-- Variant dispatch: a buffer `$argon2i$` followed by `TAIL`. -/
theorem decode_variant_i (TAIL : List Nat) (RES : Option Raw)
    (h : ∀ BUF OFF, BUF.drop OFF = TAIL → decodeParams 1 (Parser.mk BUF OFF) = RES) :
    Decode (decChunk1 ++ (105 :: (36 :: TAIL))) = RES := by
  have s1 : (Parser.mk (decChunk1 ++ (105 :: (36 :: TAIL))) 0).check decChunk1
      = (0, Parser.mk (decChunk1 ++ (105 :: (36 :: TAIL))) 7) :=
    check_front _ _ _ rfl
  have s2 : (Parser.mk (decChunk1 ++ (105 :: (36 :: TAIL))) 7).readByte
      = (105, Parser.mk (decChunk1 ++ (105 :: (36 :: TAIL))) 8) :=
    readByte_front _ _ _ rfl
  have s3 : (Parser.mk (decChunk1 ++ (105 :: (36 :: TAIL))) 8).readByte
      = (36, Parser.mk (decChunk1 ++ (105 :: (36 :: TAIL))) 9) :=
    readByte_front _ _ _ rfl
  unfold Decode
  dsimp only
  rw [s1]
  dsimp only
  rw [if_neg (show ¬((0 : Int) ≠ 0) by simp)]
  rw [s2]
  dsimp only
  rw [s3]
  dsimp only
  rw [if_pos rfl, if_neg (by omega), if_pos rfl]
  exact h _ 9 rfl

/-- Variant dispatch: a buffer `$argon2d$` followed by `TAIL`. -/
theorem decode_variant_d (TAIL : List Nat) (RES : Option Raw)
    (h : ∀ BUF OFF, BUF.drop OFF = TAIL → decodeParams 0 (Parser.mk BUF OFF) = RES) :
    Decode (decChunk1 ++ (100 :: (36 :: TAIL))) = RES := by
  have s1 : (Parser.mk (decChunk1 ++ (100 :: (36 :: TAIL))) 0).check decChunk1
      = (0, Parser.mk (decChunk1 ++ (100 :: (36 :: TAIL))) 7) :=
    check_front _ _ _ rfl
  have s2 : (Parser.mk (decChunk1 ++ (100 :: (36 :: TAIL))) 7).readByte
      = (100, Parser.mk (decChunk1 ++ (100 :: (36 :: TAIL))) 8) :=
    readByte_front _ _ _ rfl
  have s3 : (Parser.mk (decChunk1 ++ (100 :: (36 :: TAIL))) 8).readByte
      = (36, Parser.mk (decChunk1 ++ (100 :: (36 :: TAIL))) 9) :=
    readByte_front _ _ _ rfl
  unfold Decode
  dsimp only
  rw [s1]
  dsimp only
  rw [if_neg (show ¬((0 : Int) ≠ 0) by simp)]
  rw [s2]
  dsimp only
  rw [s3]
  dsimp only
  rw [if_neg (by omega), if_pos rfl]
  exact h _ 9 rfl

/-- C1 (amended): for every record whose variant is one of d/i/id, whose
version lies in 1..255, whose memory cost, time cost and parallelism are
positive uint32 values, whose salt and digest are non-empty byte sequences,
and whose `SaltLength`/`HashLength` fields equal the lengths of its salt and
digest (the amendment — without this the decoded record's length fields,
which `Decode` always recomputes from the decoded data, would differ),
`Decode (Encode r)` succeeds and returns `r` field-for-field. -/
theorem decode_encode_roundtrip (r : Raw)
    (hmode : r.Config.Mode = ModeArgon2d ∨ r.Config.Mode = ModeArgon2i
      ∨ r.Config.Mode = ModeArgon2id)
    (hv1 : 1 ≤ r.Config.Version) (hv255 : r.Config.Version ≤ 255)
    (hm : 0 < r.Config.MemoryCost) (hmB : r.Config.MemoryCost < 4294967296)
    (ht : 0 < r.Config.TimeCost) (htB : r.Config.TimeCost < 4294967296)
    (hp : 0 < r.Config.Parallelism) (hpB : r.Config.Parallelism < 4294967296)
    (hsne : r.Salt ≠ []) (hsb : ∀ b ∈ r.Salt, b < 256)
    (hhne : r.Hash ≠ []) (hhb : ∀ b ∈ r.Hash, b < 256)
    (hSL : r.Config.SaltLength = r.Salt.length)
    (hHL : r.Config.HashLength = r.Hash.length) :
    Decode r.Encode = some r := by
  obtain ⟨⟨HL, SL, T, M, P, MO, V⟩, S, H⟩ := r
  dsimp only at hmode hv1 hv255 hm hmB ht htB hp hpB hsne hsb hhne hhb hSL hHL ⊢
  subst hSL
  subst hHL
  rcases hmode with h2 | h2 | h2 <;> subst h2
  · have henc : Raw.Encode ⟨⟨H.length, S.length, T, M, P, ModeArgon2d, V⟩, S, H⟩
        = decChunk1 ++ (100 :: (36 :: (decChunk2 ++ (decDigits V ++ (decChunk3
          ++ (decDigits M ++ (decChunk4 ++ (decDigits T ++ (decChunk5 ++ (decDigits P
          ++ (36 :: (b64Encode S ++ (36 :: b64Encode H))))))))))))) := by
      unfold Raw.Encode
      dsimp only
      rw [if_pos rfl]
      simp [decChunk1, decChunk2, decChunk3, decChunk4, decChunk5, encTypD,
        List.append_assoc]
    rw [henc]
    exact decode_variant_d _ _ (fun BUF OFF hd =>
      decodeParams_happy 0 V M T P S H BUF OFF hv1 hv255 hm hmB ht htB hp hpB
        hsne hsb hhne hhb hd)
  · have henc : Raw.Encode ⟨⟨H.length, S.length, T, M, P, ModeArgon2i, V⟩, S, H⟩
        = decChunk1 ++ (105 :: (36 :: (decChunk2 ++ (decDigits V ++ (decChunk3
          ++ (decDigits M ++ (decChunk4 ++ (decDigits T ++ (decChunk5 ++ (decDigits P
          ++ (36 :: (b64Encode S ++ (36 :: b64Encode H))))))))))))) := by
      unfold Raw.Encode
      dsimp only
      rw [if_neg (by decide), if_pos rfl]
      simp [decChunk1, decChunk2, decChunk3, decChunk4, decChunk5, encTypI,
        List.append_assoc]
    rw [henc]
    exact decode_variant_i _ _ (fun BUF OFF hd =>
      decodeParams_happy 1 V M T P S H BUF OFF hv1 hv255 hm hmB ht htB hp hpB
        hsne hsb hhne hhb hd)
  · have henc : Raw.Encode ⟨⟨H.length, S.length, T, M, P, ModeArgon2id, V⟩, S, H⟩
        = decChunk1 ++ (105 :: (100 :: (36 :: (decChunk2 ++ (decDigits V ++ (decChunk3
          ++ (decDigits M ++ (decChunk4 ++ (decDigits T ++ (decChunk5 ++ (decDigits P
          ++ (36 :: (b64Encode S ++ (36 :: b64Encode H)))))))))))))) := by
      unfold Raw.Encode
      dsimp only
      rw [if_neg (by decide), if_neg (by decide), if_pos rfl]
      simp [decChunk1, decChunk2, decChunk3, decChunk4, decChunk5, encTypID,
        List.append_assoc]
    rw [henc]
    exact decode_variant_id _ _ (fun BUF OFF hd =>
      decodeParams_happy 2 V M T P S H BUF OFF hv1 hv255 hm hmB ht htB hp hpB
        hsne hsb hhne hhb hd)

/-- Witness for the amended round-trip theorem at the canonical record. -/
theorem decode_encode_roundtrip_witness : Decode canonRaw.Encode = some canonRaw :=
  decode_encode_roundtrip canonRaw (by decide) (by decide) (by decide) (by decide)
    (by decide) (by decide) (by decide) (by decide) (by decide) (by decide)
    (by decide) (by decide) (by decide) (by decide) (by decide)

/-! ### Truncated-scan helpers -/

theorem check_insufficient (p : Parser) (b : List Nat)
    (h : p.buf.length < p.off + b.length) : p.check b = (0, p) := by
  unfold Parser.check
  dsimp only
  rw [if_neg (by omega)]

theorem parseUint32_stuck (p : Parser)
    (h : p.buf.drop p.off = [] ∨ ∃ x t, p.buf.drop p.off = x :: t ∧ ¬(48 ≤ x ∧ x ≤ 57)) :
    p.parseUint32 = (0, p) := by
  unfold Parser.parseUint32
  rcases h with h | ⟨x, t, h, hx⟩
  · rw [h]
    rfl
  · rw [h, parseU32Aux_nondigit x t 0 0 hx]
    rfl

theorem drop_end_of_front {buf A : List Nat} {off : Nat} (h : buf.drop off = A) :
    buf.drop (off + A.length) = [] :=
  drop_of_front (h.trans (List.append_nil A).symm)

theorem b64Decode_single_enc (x : Nat) (hx : x < 64) : b64Decode [encChar x] = none := by
  unfold b64Decode
  rw [b64DecodeAux_step [] x hx [] (by simp)]
  rfl

/-- C4 (amended): if the buffer has fewer remaining bytes than the literal's
length, `parser.check` returns the comparison result 0 — the value that
signals a match, not a mismatch (the amendment) — and does not advance the
offset; if enough bytes remain it always advances the offset by the
literal's length and returns zero exactly when the next bytes equal the
literal. -/
theorem check_contract (p : Parser) (b : List Nat) :
    (p.buf.length < p.off + b.length → p.check b = (0, p))
      ∧ (p.off + b.length ≤ p.buf.length →
          (p.check b).2 = { p with off := p.off + b.length }
            ∧ ((p.check b).1 = 0 ↔ b = (p.buf.drop p.off).take b.length)) := by
  constructor
  · intro hlt
    unfold Parser.check
    dsimp only
    rw [if_neg (by omega)]
  · intro hle
    unfold Parser.check
    dsimp only
    rw [if_pos hle]
    exact ⟨rfl, bytesCompare_eq_zero_iff _ _⟩

/-- Witness for the check contract: a four-byte buffer against the seven-byte
literal (short case), and the canonical buffer against the same literal. -/
theorem check_contract_witness :
    ((Parser.mk (asciiBytes "$arg") 0).check decChunk1 = (0, Parser.mk (asciiBytes "$arg") 0))
      ∧ (((Parser.mk canonEncoded 0).check decChunk1).2
            = { Parser.mk canonEncoded 0 with off := 0 + decChunk1.length }
          ∧ (((Parser.mk canonEncoded 0).check decChunk1).1 = 0
            ↔ decChunk1 = (canonEncoded.drop 0).take decChunk1.length)) :=
  ⟨(check_contract (Parser.mk (asciiBytes "$arg") 0) decChunk1).1 (by decide),
   (check_contract (Parser.mk canonEncoded 0) decChunk1).2 (by decide)⟩

/-! ### Failure of the scan tail on truncated buffers -/

theorem skipUntil_end (p : Parser) (d : Nat) (h : p.buf.drop p.off = []) :
    p.skipUntil d = p :=
  skipUntil_absent p d (by rw [h]; simp)

theorem readSlice_absent' (p : Parser) (d : Nat) (L : List Nat)
    (hL : p.buf.drop p.off = L) (hA : ∀ a ∈ L, a ≠ d) : p.readSlice d = (none, p) :=
  readSlice_absent p d (by rw [hL]; exact hA)

theorem b64Encode_head (h0 : Nat) (t : List Nat) :
    ∃ rest, b64Encode (h0 :: t) = encChar (h0 / 4) :: rest := by
  match t with
  | [] => exact ⟨_, rfl⟩
  | [b] => exact ⟨_, rfl⟩
  | b :: c :: r => exact ⟨_, rfl⟩

/-- Cut before or inside the `v=` literal: the memory cost parses as 0. -/
theorem dpFail_head (mode : Nat) (BUF : List Nat) (OFF : Nat)
    (hlen : BUF.length ≤ OFF + 1)
    (hstuck : BUF.drop OFF = [] ∨ ∃ x t, BUF.drop OFF = x :: t ∧ ¬(48 ≤ x ∧ x ≤ 57)) :
    decodeParams mode (Parser.mk BUF OFF) = none := by
  have e1 := check_insufficient (Parser.mk BUF OFF) decChunk2
    (by show BUF.length < OFF + 2; omega)
  have e2 := parseUint32_stuck (Parser.mk BUF OFF) hstuck
  have e3 := check_insufficient (Parser.mk BUF OFF) decChunk3
    (by show BUF.length < OFF + 3; omega)
  unfold decodeParams
  dsimp only
  rw [e1]
  dsimp only
  rw [e2]
  dsimp only
  rw [e3]
  dsimp only
  rw [e2]
  dsimp only
  split
  · rfl
  next hcond => exact absurd (Or.inr (Or.inr (Or.inr (Or.inl rfl)))) hcond

/-- Cut right after `v=` and an initial segment of the version digits:
the memory cost parses as 0. -/
theorem dpFail_afterV (mode : Nat) (ds BUF : List Nat) (OFF : Nat)
    (hds : ∀ d ∈ ds, 48 ≤ d ∧ d ≤ 57) (hdsB : digitsVal 0 ds < 4294967296)
    (hdrop : BUF.drop OFF = decChunk2 ++ ds) :
    decodeParams mode (Parser.mk BUF OFF) = none := by
  have d1 := drop_of_front hdrop
  have d1' : BUF.drop (OFF + decChunk2.length) = ds ++ [] := by
    rw [List.append_nil]
    exact d1
  have dEnd := drop_end_of_front d1
  have hl : BUF.length - (OFF + decChunk2.length + ds.length) = 0 := by
    rw [← List.length_drop, dEnd]
    rfl
  have e1 := check_front (Parser.mk BUF OFF) decChunk2 ds hdrop
  have e2 := parseUint32_front (Parser.mk BUF (OFF + decChunk2.length)) ds []
    hds hdsB (Or.inl rfl) d1'
  have e3 := check_insufficient (Parser.mk BUF (OFF + decChunk2.length + ds.length))
    decChunk3 (by show BUF.length < OFF + decChunk2.length + ds.length + 3; omega)
  have e4 := parseUint32_stuck (Parser.mk BUF (OFF + decChunk2.length + ds.length))
    (Or.inl dEnd)
  unfold decodeParams
  dsimp only
  rw [e1]
  dsimp only
  rw [e2]
  dsimp only
  rw [e3]
  dsimp only
  rw [e4]
  dsimp only
  split
  · rfl
  next hcond => exact absurd (Or.inr (Or.inr (Or.inr (Or.inl rfl)))) hcond

/-- Cut inside the `$m=` literal: the memory cost parses as 0. -/
theorem dpFail_m0_at3 (mode : Nat) (ds Q BUF : List Nat) (OFF : Nat)
    (hds : ∀ d ∈ ds, 48 ≤ d ∧ d ≤ 57) (hdsB : digitsVal 0 ds < 4294967296)
    (hQ : Q = [36] ∨ Q = [36, 109])
    (hdrop : BUF.drop OFF = decChunk2 ++ (ds ++ Q)) :
    decodeParams mode (Parser.mk BUF OFF) = none := by
  have d1 := drop_of_front hdrop
  have d2 := drop_of_front d1
  have hlQ : Q.length ≤ 2 := by rcases hQ with rfl | rfl <;> simp
  have hl : BUF.length - (OFF + decChunk2.length + ds.length) = Q.length := by
    rw [← List.length_drop, d2]
  have e1 := check_front (Parser.mk BUF OFF) decChunk2 (ds ++ Q) hdrop
  have e2 := parseUint32_front (Parser.mk BUF (OFF + decChunk2.length)) ds Q
    hds hdsB (by
      rcases hQ with rfl | rfl
      · exact Or.inr ⟨36, [], rfl, by decide⟩
      · exact Or.inr ⟨36, [109], rfl, by decide⟩) d1
  have e3 := check_insufficient (Parser.mk BUF (OFF + decChunk2.length + ds.length))
    decChunk3 (by show BUF.length < OFF + decChunk2.length + ds.length + 3; omega)
  have e4 := parseUint32_stuck (Parser.mk BUF (OFF + decChunk2.length + ds.length)) (by
    rcases hQ with rfl | rfl
    · exact Or.inr ⟨36, [], d2, by decide⟩
    · exact Or.inr ⟨36, [109], d2, by decide⟩)
  unfold decodeParams
  dsimp only
  rw [e1]
  dsimp only
  rw [e2]
  dsimp only
  rw [e3]
  dsimp only
  rw [e4]
  dsimp only
  split
  · rfl
  next hcond => exact absurd (Or.inr (Or.inr (Or.inr (Or.inl rfl)))) hcond

/-- Cut after `$m=` and an initial segment of the memory digits:
the time cost parses as 0. -/
theorem dpFail_afterM (mode v : Nat) (ds BUF : List Nat) (OFF : Nat)
    (hv255 : v ≤ 255)
    (hds : ∀ d ∈ ds, 48 ≤ d ∧ d ≤ 57) (hdsB : digitsVal 0 ds < 4294967296)
    (hdrop : BUF.drop OFF = decChunk2 ++ (decDigits v ++ (decChunk3 ++ ds))) :
    decodeParams mode (Parser.mk BUF OFF) = none := by
  have d1 := drop_of_front hdrop
  have d2 := drop_of_front d1
  have d3 := drop_of_front d2
  have d3' : BUF.drop (OFF + decChunk2.length + (decDigits v).length
      + decChunk3.length) = ds ++ [] := by
    rw [List.append_nil]
    exact d3
  have dEnd := drop_end_of_front d3
  have hl : BUF.length - (OFF + decChunk2.length + (decDigits v).length
      + decChunk3.length + ds.length) = 0 := by
    rw [← List.length_drop, dEnd]
    rfl
  have e1 := check_front (Parser.mk BUF OFF) decChunk2 _ hdrop
  have e2 : (Parser.mk BUF (OFF + decChunk2.length)).parseUint32
      = (v, Parser.mk BUF (OFF + decChunk2.length + (decDigits v).length)) := by
    have h' := parseUint32_front (Parser.mk BUF (OFF + decChunk2.length))
      (decDigits v) _ (decDigits_mem v)
      (by rw [digitsVal_decDigits]; omega) (Or.inr ⟨36, _, rfl, by decide⟩) d1
    rw [digitsVal_decDigits] at h'
    exact h'
  have e3 := check_front (Parser.mk BUF (OFF + decChunk2.length + (decDigits v).length))
    decChunk3 ds d2
  have e4 := parseUint32_front (Parser.mk BUF (OFF + decChunk2.length
      + (decDigits v).length + decChunk3.length)) ds [] hds hdsB (Or.inl rfl) d3'
  have e5 := check_insufficient (Parser.mk BUF (OFF + decChunk2.length
      + (decDigits v).length + decChunk3.length + ds.length)) decChunk4
    (by show BUF.length < OFF + decChunk2.length + (decDigits v).length
      + decChunk3.length + ds.length + 3; omega)
  have e6 := parseUint32_stuck (Parser.mk BUF (OFF + decChunk2.length
      + (decDigits v).length + decChunk3.length + ds.length)) (Or.inl dEnd)
  unfold decodeParams
  dsimp only
  rw [e1]
  dsimp only
  rw [e2]
  dsimp only
  rw [e3]
  dsimp only
  rw [e4]
  dsimp only
  rw [e5]
  dsimp only
  rw [e6]
  dsimp only
  split
  · rfl
  next hcond => exact absurd (Or.inr (Or.inr (Or.inr (Or.inr (Or.inl rfl))))) hcond

/-- Cut inside the `,t=` literal: the time cost parses as 0. -/
theorem dpFail_t0_at4 (mode v m : Nat) (Q BUF : List Nat) (OFF : Nat)
    (hv255 : v ≤ 255) (hmB : m < 4294967296)
    (hQ : Q = [44] ∨ Q = [44, 116])
    (hdrop : BUF.drop OFF = decChunk2 ++ (decDigits v ++ (decChunk3
      ++ (decDigits m ++ Q)))) :
    decodeParams mode (Parser.mk BUF OFF) = none := by
  have d1 := drop_of_front hdrop
  have d2 := drop_of_front d1
  have d3 := drop_of_front d2
  have d4 := drop_of_front d3
  have hlQ : Q.length ≤ 2 := by rcases hQ with rfl | rfl <;> simp
  have hl : BUF.length - (OFF + decChunk2.length + (decDigits v).length
      + decChunk3.length + (decDigits m).length) = Q.length := by
    rw [← List.length_drop, d4]
  have e1 := check_front (Parser.mk BUF OFF) decChunk2 _ hdrop
  have e2 : (Parser.mk BUF (OFF + decChunk2.length)).parseUint32
      = (v, Parser.mk BUF (OFF + decChunk2.length + (decDigits v).length)) := by
    have h' := parseUint32_front (Parser.mk BUF (OFF + decChunk2.length))
      (decDigits v) _ (decDigits_mem v)
      (by rw [digitsVal_decDigits]; omega) (Or.inr ⟨36, _, rfl, by decide⟩) d1
    rw [digitsVal_decDigits] at h'
    exact h'
  have e3 := check_front (Parser.mk BUF (OFF + decChunk2.length + (decDigits v).length))
    decChunk3 _ d2
  have e4 : (Parser.mk BUF (OFF + decChunk2.length + (decDigits v).length
        + decChunk3.length)).parseUint32
      = (m, Parser.mk BUF (OFF + decChunk2.length + (decDigits v).length
          + decChunk3.length + (decDigits m).length)) := by
    have h' := parseUint32_front (Parser.mk BUF (OFF + decChunk2.length
        + (decDigits v).length + decChunk3.length))
      (decDigits m) Q (decDigits_mem m)
      (by rw [digitsVal_decDigits]; omega) (by
        rcases hQ with rfl | rfl
        · exact Or.inr ⟨44, [], rfl, by decide⟩
        · exact Or.inr ⟨44, [116], rfl, by decide⟩) d3
    rw [digitsVal_decDigits] at h'
    exact h'
  have e5 := check_insufficient (Parser.mk BUF (OFF + decChunk2.length
      + (decDigits v).length + decChunk3.length + (decDigits m).length)) decChunk4
    (by show BUF.length < OFF + decChunk2.length + (decDigits v).length
      + decChunk3.length + (decDigits m).length + 3; omega)
  have e6 := parseUint32_stuck (Parser.mk BUF (OFF + decChunk2.length
      + (decDigits v).length + decChunk3.length + (decDigits m).length)) (by
    rcases hQ with rfl | rfl
    · exact Or.inr ⟨44, [], d4, by decide⟩
    · exact Or.inr ⟨44, [116], d4, by decide⟩)
  unfold decodeParams
  dsimp only
  rw [e1]
  dsimp only
  rw [e2]
  dsimp only
  rw [e3]
  dsimp only
  rw [e4]
  dsimp only
  rw [e5]
  dsimp only
  rw [e6]
  dsimp only
  split
  · rfl
  next hcond => exact absurd (Or.inr (Or.inr (Or.inr (Or.inr (Or.inl rfl))))) hcond

/-- Cut after `,t=` and an initial segment of the time digits:
the parallelism parses as 0. -/
theorem dpFail_afterT (mode v m : Nat) (ds BUF : List Nat) (OFF : Nat)
    (hv255 : v ≤ 255) (hmB : m < 4294967296)
    (hds : ∀ d ∈ ds, 48 ≤ d ∧ d ≤ 57) (hdsB : digitsVal 0 ds < 4294967296)
    (hdrop : BUF.drop OFF = decChunk2 ++ (decDigits v ++ (decChunk3
      ++ (decDigits m ++ (decChunk4 ++ ds))))) :
    decodeParams mode (Parser.mk BUF OFF) = none := by
  have d1 := drop_of_front hdrop
  have d2 := drop_of_front d1
  have d3 := drop_of_front d2
  have d4 := drop_of_front d3
  have d5 := drop_of_front d4
  have d5' : BUF.drop (OFF + decChunk2.length + (decDigits v).length
      + decChunk3.length + (decDigits m).length + decChunk4.length) = ds ++ [] := by
    rw [List.append_nil]
    exact d5
  have dEnd := drop_end_of_front d5
  have hl : BUF.length - (OFF + decChunk2.length + (decDigits v).length
      + decChunk3.length + (decDigits m).length + decChunk4.length + ds.length) = 0 := by
    rw [← List.length_drop, dEnd]
    rfl
  have e1 := check_front (Parser.mk BUF OFF) decChunk2 _ hdrop
  have e2 : (Parser.mk BUF (OFF + decChunk2.length)).parseUint32
      = (v, Parser.mk BUF (OFF + decChunk2.length + (decDigits v).length)) := by
    have h' := parseUint32_front (Parser.mk BUF (OFF + decChunk2.length))
      (decDigits v) _ (decDigits_mem v)
      (by rw [digitsVal_decDigits]; omega) (Or.inr ⟨36, _, rfl, by decide⟩) d1
    rw [digitsVal_decDigits] at h'
    exact h'
  have e3 := check_front (Parser.mk BUF (OFF + decChunk2.length + (decDigits v).length))
    decChunk3 _ d2
  have e4 : (Parser.mk BUF (OFF + decChunk2.length + (decDigits v).length
        + decChunk3.length)).parseUint32
      = (m, Parser.mk BUF (OFF + decChunk2.length + (decDigits v).length
          + decChunk3.length + (decDigits m).length)) := by
    have h' := parseUint32_front (Parser.mk BUF (OFF + decChunk2.length
        + (decDigits v).length + decChunk3.length))
      (decDigits m) _ (decDigits_mem m)
      (by rw [digitsVal_decDigits]; omega) (Or.inr ⟨44, _, rfl, by decide⟩) d3
    rw [digitsVal_decDigits] at h'
    exact h'
  have e5 := check_front (Parser.mk BUF (OFF + decChunk2.length + (decDigits v).length
      + decChunk3.length + (decDigits m).length)) decChunk4 ds d4
  have e6 := parseUint32_front (Parser.mk BUF (OFF + decChunk2.length
      + (decDigits v).length + decChunk3.length + (decDigits m).length
      + decChunk4.length)) ds [] hds hdsB (Or.inl rfl) d5'
  have e7 := check_insufficient (Parser.mk BUF (OFF + decChunk2.length
      + (decDigits v).length + decChunk3.length + (decDigits m).length
      + decChunk4.length + ds.length)) decChunk5
    (by
      show BUF.length < OFF + decChunk2.length + (decDigits v).length
        + decChunk3.length + (decDigits m).length + decChunk4.length + ds.length + 3
      omega)
  have e8 := parseUint32_stuck (Parser.mk BUF (OFF + decChunk2.length
      + (decDigits v).length + decChunk3.length + (decDigits m).length
      + decChunk4.length + ds.length)) (Or.inl dEnd)
  unfold decodeParams
  dsimp only
  rw [e1]
  dsimp only
  rw [e2]
  dsimp only
  rw [e3]
  dsimp only
  rw [e4]
  dsimp only
  rw [e5]
  dsimp only
  rw [e6]
  dsimp only
  rw [e7]
  dsimp only
  rw [e8]
  dsimp only
  split
  · rfl
  next hcond =>
    exact absurd (Or.inr (Or.inr (Or.inr (Or.inr (Or.inr (Or.inl rfl)))))) hcond

/-- Cut inside the `,p=` literal: the parallelism parses as 0. -/
theorem dpFail_p0_at5 (mode v m t : Nat) (Q BUF : List Nat) (OFF : Nat)
    (hv255 : v ≤ 255) (hmB : m < 4294967296) (htB : t < 4294967296)
    (hQ : Q = [44] ∨ Q = [44, 112])
    (hdrop : BUF.drop OFF = decChunk2 ++ (decDigits v ++ (decChunk3
      ++ (decDigits m ++ (decChunk4 ++ (decDigits t ++ Q)))))) :
    decodeParams mode (Parser.mk BUF OFF) = none := by
  have d1 := drop_of_front hdrop
  have d2 := drop_of_front d1
  have d3 := drop_of_front d2
  have d4 := drop_of_front d3
  have d5 := drop_of_front d4
  have d6 := drop_of_front d5
  have hlQ : Q.length ≤ 2 := by rcases hQ with rfl | rfl <;> simp
  have hl : BUF.length - (OFF + decChunk2.length + (decDigits v).length
      + decChunk3.length + (decDigits m).length + decChunk4.length
      + (decDigits t).length) = Q.length := by
    rw [← List.length_drop, d6]
  have e1 := check_front (Parser.mk BUF OFF) decChunk2 _ hdrop
  have e2 : (Parser.mk BUF (OFF + decChunk2.length)).parseUint32
      = (v, Parser.mk BUF (OFF + decChunk2.length + (decDigits v).length)) := by
    have h' := parseUint32_front (Parser.mk BUF (OFF + decChunk2.length))
      (decDigits v) _ (decDigits_mem v)
      (by rw [digitsVal_decDigits]; omega) (Or.inr ⟨36, _, rfl, by decide⟩) d1
    rw [digitsVal_decDigits] at h'
    exact h'
  have e3 := check_front (Parser.mk BUF (OFF + decChunk2.length + (decDigits v).length))
    decChunk3 _ d2
  have e4 : (Parser.mk BUF (OFF + decChunk2.length + (decDigits v).length
        + decChunk3.length)).parseUint32
      = (m, Parser.mk BUF (OFF + decChunk2.length + (decDigits v).length
          + decChunk3.length + (decDigits m).length)) := by
    have h' := parseUint32_front (Parser.mk BUF (OFF + decChunk2.length
        + (decDigits v).length + decChunk3.length))
      (decDigits m) _ (decDigits_mem m)
      (by rw [digitsVal_decDigits]; omega) (Or.inr ⟨44, _, rfl, by decide⟩) d3
    rw [digitsVal_decDigits] at h'
    exact h'
  have e5 := check_front (Parser.mk BUF (OFF + decChunk2.length + (decDigits v).length
      + decChunk3.length + (decDigits m).length)) decChunk4 _ d4
  have e6 : (Parser.mk BUF (OFF + decChunk2.length + (decDigits v).length
        + decChunk3.length + (decDigits m).length + decChunk4.length)).parseUint32
      = (t, Parser.mk BUF (OFF + decChunk2.length + (decDigits v).length
          + decChunk3.length + (decDigits m).length + decChunk4.length
          + (decDigits t).length)) := by
    have h' := parseUint32_front (Parser.mk BUF (OFF + decChunk2.length
        + (decDigits v).length + decChunk3.length + (decDigits m).length
        + decChunk4.length)) (decDigits t) Q (decDigits_mem t)
      (by rw [digitsVal_decDigits]; omega) (by
        rcases hQ with rfl | rfl
        · exact Or.inr ⟨44, [], rfl, by decide⟩
        · exact Or.inr ⟨44, [112], rfl, by decide⟩) d5
    rw [digitsVal_decDigits] at h'
    exact h'
  have e7 := check_insufficient (Parser.mk BUF (OFF + decChunk2.length
      + (decDigits v).length + decChunk3.length + (decDigits m).length
      + decChunk4.length + (decDigits t).length)) decChunk5
    (by
      show BUF.length < OFF + decChunk2.length + (decDigits v).length
        + decChunk3.length + (decDigits m).length + decChunk4.length
        + (decDigits t).length + 3
      omega)
  have e8 := parseUint32_stuck (Parser.mk BUF (OFF + decChunk2.length
      + (decDigits v).length + decChunk3.length + (decDigits m).length
      + decChunk4.length + (decDigits t).length)) (by
    rcases hQ with rfl | rfl
    · exact Or.inr ⟨44, [], d6, by decide⟩
    · exact Or.inr ⟨44, [112], d6, by decide⟩)
  unfold decodeParams
  dsimp only
  rw [e1]
  dsimp only
  rw [e2]
  dsimp only
  rw [e3]
  dsimp only
  rw [e4]
  dsimp only
  rw [e5]
  dsimp only
  rw [e6]
  dsimp only
  rw [e7]
  dsimp only
  rw [e8]
  dsimp only
  split
  · rfl
  next hcond =>
    exact absurd (Or.inr (Or.inr (Or.inr (Or.inr (Or.inr (Or.inl rfl)))))) hcond

/-- Cut after `,p=` and an initial segment of the parallelism digits:
no `$` remains, so the salt span is nil. -/
theorem dpFail_afterP (mode v m t : Nat) (ds BUF : List Nat) (OFF : Nat)
    (hv255 : v ≤ 255) (hmB : m < 4294967296) (htB : t < 4294967296)
    (hds : ∀ d ∈ ds, 48 ≤ d ∧ d ≤ 57) (hdsB : digitsVal 0 ds < 4294967296)
    (hdrop : BUF.drop OFF = decChunk2 ++ (decDigits v ++ (decChunk3
      ++ (decDigits m ++ (decChunk4 ++ (decDigits t ++ (decChunk5 ++ ds))))))) :
    decodeParams mode (Parser.mk BUF OFF) = none := by
  have d1 := drop_of_front hdrop
  have d2 := drop_of_front d1
  have d3 := drop_of_front d2
  have d4 := drop_of_front d3
  have d5 := drop_of_front d4
  have d6 := drop_of_front d5
  have d7 := drop_of_front d6
  have d7' : BUF.drop (OFF + decChunk2.length + (decDigits v).length
      + decChunk3.length + (decDigits m).length + decChunk4.length
      + (decDigits t).length + decChunk5.length) = ds ++ [] := by
    rw [List.append_nil]
    exact d7
  have dEnd := drop_end_of_front d7
  have e1 := check_front (Parser.mk BUF OFF) decChunk2 _ hdrop
  have e2 : (Parser.mk BUF (OFF + decChunk2.length)).parseUint32
      = (v, Parser.mk BUF (OFF + decChunk2.length + (decDigits v).length)) := by
    have h' := parseUint32_front (Parser.mk BUF (OFF + decChunk2.length))
      (decDigits v) _ (decDigits_mem v)
      (by rw [digitsVal_decDigits]; omega) (Or.inr ⟨36, _, rfl, by decide⟩) d1
    rw [digitsVal_decDigits] at h'
    exact h'
  have e3 := check_front (Parser.mk BUF (OFF + decChunk2.length + (decDigits v).length))
    decChunk3 _ d2
  have e4 : (Parser.mk BUF (OFF + decChunk2.length + (decDigits v).length
        + decChunk3.length)).parseUint32
      = (m, Parser.mk BUF (OFF + decChunk2.length + (decDigits v).length
          + decChunk3.length + (decDigits m).length)) := by
    have h' := parseUint32_front (Parser.mk BUF (OFF + decChunk2.length
        + (decDigits v).length + decChunk3.length))
      (decDigits m) _ (decDigits_mem m)
      (by rw [digitsVal_decDigits]; omega) (Or.inr ⟨44, _, rfl, by decide⟩) d3
    rw [digitsVal_decDigits] at h'
    exact h'
  have e5 := check_front (Parser.mk BUF (OFF + decChunk2.length + (decDigits v).length
      + decChunk3.length + (decDigits m).length)) decChunk4 _ d4
  have e6 : (Parser.mk BUF (OFF + decChunk2.length + (decDigits v).length
        + decChunk3.length + (decDigits m).length + decChunk4.length)).parseUint32
      = (t, Parser.mk BUF (OFF + decChunk2.length + (decDigits v).length
          + decChunk3.length + (decDigits m).length + decChunk4.length
          + (decDigits t).length)) := by
    have h' := parseUint32_front (Parser.mk BUF (OFF + decChunk2.length
        + (decDigits v).length + decChunk3.length + (decDigits m).length
        + decChunk4.length)) (decDigits t) _ (decDigits_mem t)
      (by rw [digitsVal_decDigits]; omega) (Or.inr ⟨44, _, rfl, by decide⟩) d5
    rw [digitsVal_decDigits] at h'
    exact h'
  have e7 := check_front (Parser.mk BUF (OFF + decChunk2.length + (decDigits v).length
      + decChunk3.length + (decDigits m).length + decChunk4.length
      + (decDigits t).length)) decChunk5 ds d6
  have e8 := parseUint32_front (Parser.mk BUF (OFF + decChunk2.length
      + (decDigits v).length + decChunk3.length + (decDigits m).length
      + decChunk4.length + (decDigits t).length + decChunk5.length)) ds []
    hds hdsB (Or.inl rfl) d7'
  have e9 : (Parser.mk BUF (OFF + decChunk2.length + (decDigits v).length
        + decChunk3.length + (decDigits m).length + decChunk4.length
        + (decDigits t).length + decChunk5.length + ds.length)).skipUntil 36
      = Parser.mk BUF (OFF + decChunk2.length + (decDigits v).length
        + decChunk3.length + (decDigits m).length + decChunk4.length
        + (decDigits t).length + decChunk5.length + ds.length) :=
    skipUntil_end _ 36 dEnd
  have e10 : (Parser.mk BUF (OFF + decChunk2.length + (decDigits v).length
        + decChunk3.length + (decDigits m).length + decChunk4.length
        + (decDigits t).length + decChunk5.length + ds.length)).readSlice 36
      = (none, Parser.mk BUF (OFF + decChunk2.length + (decDigits v).length
        + decChunk3.length + (decDigits m).length + decChunk4.length
        + (decDigits t).length + decChunk5.length + ds.length)) :=
    readSlice_absent' _ 36 [] dEnd (by simp)
  unfold decodeParams
  dsimp only
  rw [e1]
  dsimp only
  rw [e2]
  dsimp only
  rw [e3]
  dsimp only
  rw [e4]
  dsimp only
  rw [e5]
  dsimp only
  rw [e6]
  dsimp only
  rw [e7]
  dsimp only
  rw [e8]
  dsimp only
  rw [e9]
  rw [e10]
  dsimp only
  split
  · rfl
  next hcond =>
    exact absurd
      (Or.inr (Or.inr (Or.inr (Or.inr (Or.inr (Or.inr (Or.inl rfl))))))) hcond

/-- Cut after the salt delimiter `$` inside the salt span: no second `$`
remains, so the salt span is nil. -/
theorem dpFail_saltPartial (mode v m t pp : Nat) (Sp BUF : List Nat) (OFF : Nat)
    (hv255 : v ≤ 255) (hmB : m < 4294967296) (htB : t < 4294967296)
    (hpB : pp < 4294967296)
    (hSp : ∀ a ∈ Sp, a ≠ 36)
    (hdrop : BUF.drop OFF = decChunk2 ++ (decDigits v ++ (decChunk3
      ++ (decDigits m ++ (decChunk4 ++ (decDigits t ++ (decChunk5
      ++ (decDigits pp ++ (36 :: Sp))))))))) :
    decodeParams mode (Parser.mk BUF OFF) = none := by
  have d1 := drop_of_front hdrop
  have d2 := drop_of_front d1
  have d3 := drop_of_front d2
  have d4 := drop_of_front d3
  have d5 := drop_of_front d4
  have d6 := drop_of_front d5
  have d7 := drop_of_front d6
  have d8 := drop_of_front d7
  have d9 : BUF.drop (OFF + decChunk2.length + (decDigits v).length
      + decChunk3.length + (decDigits m).length + decChunk4.length
      + (decDigits t).length + decChunk5.length + (decDigits pp).length + 1) = Sp :=
    drop_of_front (A := [36]) d8
  have e1 := check_front (Parser.mk BUF OFF) decChunk2 _ hdrop
  have e2 : (Parser.mk BUF (OFF + decChunk2.length)).parseUint32
      = (v, Parser.mk BUF (OFF + decChunk2.length + (decDigits v).length)) := by
    have h' := parseUint32_front (Parser.mk BUF (OFF + decChunk2.length))
      (decDigits v) _ (decDigits_mem v)
      (by rw [digitsVal_decDigits]; omega) (Or.inr ⟨36, _, rfl, by decide⟩) d1
    rw [digitsVal_decDigits] at h'
    exact h'
  have e3 := check_front (Parser.mk BUF (OFF + decChunk2.length + (decDigits v).length))
    decChunk3 _ d2
  have e4 : (Parser.mk BUF (OFF + decChunk2.length + (decDigits v).length
        + decChunk3.length)).parseUint32
      = (m, Parser.mk BUF (OFF + decChunk2.length + (decDigits v).length
          + decChunk3.length + (decDigits m).length)) := by
    have h' := parseUint32_front (Parser.mk BUF (OFF + decChunk2.length
        + (decDigits v).length + decChunk3.length))
      (decDigits m) _ (decDigits_mem m)
      (by rw [digitsVal_decDigits]; omega) (Or.inr ⟨44, _, rfl, by decide⟩) d3
    rw [digitsVal_decDigits] at h'
    exact h'
  have e5 := check_front (Parser.mk BUF (OFF + decChunk2.length + (decDigits v).length
      + decChunk3.length + (decDigits m).length)) decChunk4 _ d4
  have e6 : (Parser.mk BUF (OFF + decChunk2.length + (decDigits v).length
        + decChunk3.length + (decDigits m).length + decChunk4.length)).parseUint32
      = (t, Parser.mk BUF (OFF + decChunk2.length + (decDigits v).length
          + decChunk3.length + (decDigits m).length + decChunk4.length
          + (decDigits t).length)) := by
    have h' := parseUint32_front (Parser.mk BUF (OFF + decChunk2.length
        + (decDigits v).length + decChunk3.length + (decDigits m).length
        + decChunk4.length)) (decDigits t) _ (decDigits_mem t)
      (by rw [digitsVal_decDigits]; omega) (Or.inr ⟨44, _, rfl, by decide⟩) d5
    rw [digitsVal_decDigits] at h'
    exact h'
  have e7 := check_front (Parser.mk BUF (OFF + decChunk2.length + (decDigits v).length
      + decChunk3.length + (decDigits m).length + decChunk4.length
      + (decDigits t).length)) decChunk5 _ d6
  have e8 : (Parser.mk BUF (OFF + decChunk2.length + (decDigits v).length
        + decChunk3.length + (decDigits m).length + decChunk4.length
        + (decDigits t).length + decChunk5.length)).parseUint32
      = (pp, Parser.mk BUF (OFF + decChunk2.length + (decDigits v).length
          + decChunk3.length + (decDigits m).length + decChunk4.length
          + (decDigits t).length + decChunk5.length + (decDigits pp).length)) := by
    have h' := parseUint32_front (Parser.mk BUF (OFF + decChunk2.length
        + (decDigits v).length + decChunk3.length + (decDigits m).length
        + decChunk4.length + (decDigits t).length + decChunk5.length))
      (decDigits pp) _ (decDigits_mem pp)
      (by rw [digitsVal_decDigits]; omega) (Or.inr ⟨36, _, rfl, by decide⟩) d7
    rw [digitsVal_decDigits] at h'
    exact h'
  have e9 : (Parser.mk BUF (OFF + decChunk2.length + (decDigits v).length
        + decChunk3.length + (decDigits m).length + decChunk4.length
        + (decDigits t).length + decChunk5.length
        + (decDigits pp).length)).skipUntil 36
      = Parser.mk BUF (OFF + decChunk2.length + (decDigits v).length
        + decChunk3.length + (decDigits m).length + decChunk4.length
        + (decDigits t).length + decChunk5.length + (decDigits pp).length + 1) :=
    skipUntil_front _ [] Sp 36 (by simp) d8
  have e10 : (Parser.mk BUF (OFF + decChunk2.length + (decDigits v).length
        + decChunk3.length + (decDigits m).length + decChunk4.length
        + (decDigits t).length + decChunk5.length
        + (decDigits pp).length + 1)).readSlice 36
      = (none, Parser.mk BUF (OFF + decChunk2.length + (decDigits v).length
        + decChunk3.length + (decDigits m).length + decChunk4.length
        + (decDigits t).length + decChunk5.length + (decDigits pp).length + 1)) :=
    readSlice_absent' _ 36 Sp d9 hSp
  unfold decodeParams
  dsimp only
  rw [e1]
  dsimp only
  rw [e2]
  dsimp only
  rw [e3]
  dsimp only
  rw [e4]
  dsimp only
  rw [e5]
  dsimp only
  rw [e6]
  dsimp only
  rw [e7]
  dsimp only
  rw [e8]
  dsimp only
  rw [e9]
  rw [e10]
  dsimp only
  split
  · rfl
  next hcond =>
    exact absurd
      (Or.inr (Or.inr (Or.inr (Or.inr (Or.inr (Or.inr (Or.inl rfl))))))) hcond

/-- Cut right after the hash delimiter `$`: the rest of the buffer is empty,
so the digest span is nil. -/
theorem dpFail_noHash (mode v m t pp : Nat) (Bs BUF : List Nat) (OFF : Nat)
    (hv255 : v ≤ 255) (hmB : m < 4294967296) (htB : t < 4294967296)
    (hpB : pp < 4294967296)
    (hBs36 : ∀ a ∈ Bs, a ≠ 36) (hBsne : Bs ≠ [])
    (hdrop : BUF.drop OFF = decChunk2 ++ (decDigits v ++ (decChunk3
      ++ (decDigits m ++ (decChunk4 ++ (decDigits t ++ (decChunk5
      ++ (decDigits pp ++ (36 :: (Bs ++ [36])))))))))) :
    decodeParams mode (Parser.mk BUF OFF) = none := by
  have d1 := drop_of_front hdrop
  have d2 := drop_of_front d1
  have d3 := drop_of_front d2
  have d4 := drop_of_front d3
  have d5 := drop_of_front d4
  have d6 := drop_of_front d5
  have d7 := drop_of_front d6
  have d8 := drop_of_front d7
  have d9 : BUF.drop (OFF + decChunk2.length + (decDigits v).length
      + decChunk3.length + (decDigits m).length + decChunk4.length
      + (decDigits t).length + decChunk5.length + (decDigits pp).length + 1)
      = Bs ++ [36] :=
    drop_of_front (A := [36]) d8
  have d10 := drop_of_front d9
  have d11 : BUF.drop (OFF + decChunk2.length + (decDigits v).length
      + decChunk3.length + (decDigits m).length + decChunk4.length
      + (decDigits t).length + decChunk5.length + (decDigits pp).length + 1
      + Bs.length + 1) = [] :=
    drop_end_of_front d10
  have e1 := check_front (Parser.mk BUF OFF) decChunk2 _ hdrop
  have e2 : (Parser.mk BUF (OFF + decChunk2.length)).parseUint32
      = (v, Parser.mk BUF (OFF + decChunk2.length + (decDigits v).length)) := by
    have h' := parseUint32_front (Parser.mk BUF (OFF + decChunk2.length))
      (decDigits v) _ (decDigits_mem v)
      (by rw [digitsVal_decDigits]; omega) (Or.inr ⟨36, _, rfl, by decide⟩) d1
    rw [digitsVal_decDigits] at h'
    exact h'
  have e3 := check_front (Parser.mk BUF (OFF + decChunk2.length + (decDigits v).length))
    decChunk3 _ d2
  have e4 : (Parser.mk BUF (OFF + decChunk2.length + (decDigits v).length
        + decChunk3.length)).parseUint32
      = (m, Parser.mk BUF (OFF + decChunk2.length + (decDigits v).length
          + decChunk3.length + (decDigits m).length)) := by
    have h' := parseUint32_front (Parser.mk BUF (OFF + decChunk2.length
        + (decDigits v).length + decChunk3.length))
      (decDigits m) _ (decDigits_mem m)
      (by rw [digitsVal_decDigits]; omega) (Or.inr ⟨44, _, rfl, by decide⟩) d3
    rw [digitsVal_decDigits] at h'
    exact h'
  have e5 := check_front (Parser.mk BUF (OFF + decChunk2.length + (decDigits v).length
      + decChunk3.length + (decDigits m).length)) decChunk4 _ d4
  have e6 : (Parser.mk BUF (OFF + decChunk2.length + (decDigits v).length
        + decChunk3.length + (decDigits m).length + decChunk4.length)).parseUint32
      = (t, Parser.mk BUF (OFF + decChunk2.length + (decDigits v).length
          + decChunk3.length + (decDigits m).length + decChunk4.length
          + (decDigits t).length)) := by
    have h' := parseUint32_front (Parser.mk BUF (OFF + decChunk2.length
        + (decDigits v).length + decChunk3.length + (decDigits m).length
        + decChunk4.length)) (decDigits t) _ (decDigits_mem t)
      (by rw [digitsVal_decDigits]; omega) (Or.inr ⟨44, _, rfl, by decide⟩) d5
    rw [digitsVal_decDigits] at h'
    exact h'
  have e7 := check_front (Parser.mk BUF (OFF + decChunk2.length + (decDigits v).length
      + decChunk3.length + (decDigits m).length + decChunk4.length
      + (decDigits t).length)) decChunk5 _ d6
  have e8 : (Parser.mk BUF (OFF + decChunk2.length + (decDigits v).length
        + decChunk3.length + (decDigits m).length + decChunk4.length
        + (decDigits t).length + decChunk5.length)).parseUint32
      = (pp, Parser.mk BUF (OFF + decChunk2.length + (decDigits v).length
          + decChunk3.length + (decDigits m).length + decChunk4.length
          + (decDigits t).length + decChunk5.length + (decDigits pp).length)) := by
    have h' := parseUint32_front (Parser.mk BUF (OFF + decChunk2.length
        + (decDigits v).length + decChunk3.length + (decDigits m).length
        + decChunk4.length + (decDigits t).length + decChunk5.length))
      (decDigits pp) _ (decDigits_mem pp)
      (by rw [digitsVal_decDigits]; omega) (Or.inr ⟨36, _, rfl, by decide⟩) d7
    rw [digitsVal_decDigits] at h'
    exact h'
  have e9 : (Parser.mk BUF (OFF + decChunk2.length + (decDigits v).length
        + decChunk3.length + (decDigits m).length + decChunk4.length
        + (decDigits t).length + decChunk5.length
        + (decDigits pp).length)).skipUntil 36
      = Parser.mk BUF (OFF + decChunk2.length + (decDigits v).length
        + decChunk3.length + (decDigits m).length + decChunk4.length
        + (decDigits t).length + decChunk5.length + (decDigits pp).length + 1) :=
    skipUntil_front _ [] (Bs ++ [36]) 36 (by simp) d8
  have e10 : (Parser.mk BUF (OFF + decChunk2.length + (decDigits v).length
        + decChunk3.length + (decDigits m).length + decChunk4.length
        + (decDigits t).length + decChunk5.length
        + (decDigits pp).length + 1)).readSlice 36
      = (some Bs, Parser.mk BUF (OFF + decChunk2.length + (decDigits v).length
        + decChunk3.length + (decDigits m).length + decChunk4.length
        + (decDigits t).length + decChunk5.length + (decDigits pp).length + 1
        + Bs.length + 1)) :=
    readSlice_front _ Bs [] 36 hBs36 hBsne d9
  have e11 : (Parser.mk BUF (OFF + decChunk2.length + (decDigits v).length
        + decChunk3.length + (decDigits m).length + decChunk4.length
        + (decDigits t).length + decChunk5.length + (decDigits pp).length + 1
        + Bs.length + 1)).readRest
      = (none, Parser.mk BUF (OFF + decChunk2.length + (decDigits v).length
        + decChunk3.length + (decDigits m).length + decChunk4.length
        + (decDigits t).length + decChunk5.length + (decDigits pp).length + 1
        + Bs.length + 1)) :=
    readRest_end _ d11
  unfold decodeParams
  dsimp only
  rw [e1]
  dsimp only
  rw [e2]
  dsimp only
  rw [e3]
  dsimp only
  rw [e4]
  dsimp only
  rw [e5]
  dsimp only
  rw [e6]
  dsimp only
  rw [e7]
  dsimp only
  rw [e8]
  dsimp only
  rw [e9]
  rw [e10]
  dsimp only
  rw [e11]
  dsimp only
  split
  · rfl
  next hcond =>
    exact absurd
      (Or.inr (Or.inr (Or.inr (Or.inr (Or.inr (Or.inr (Or.inr rfl))))))) hcond

/-- Cut after exactly one byte of the encoded digest: a single base64
character is not a valid base64 length, so decoding the digest fails. -/
theorem dpFail_oneHashChar (mode v m t pp : Nat) (salt : List Nat) (h0 : Nat)
    (BUF : List Nat) (OFF : Nat)
    (hv1 : 1 ≤ v) (hv255 : v ≤ 255)
    (hm : 0 < m) (hmB : m < 4294967296)
    (ht : 0 < t) (htB : t < 4294967296)
    (hp : 0 < pp) (hpB : pp < 4294967296)
    (hsne : salt ≠ []) (hsb : ∀ b ∈ salt, b < 256) (hh0 : h0 < 256)
    (hdrop : BUF.drop OFF = decChunk2 ++ (decDigits v ++ (decChunk3
      ++ (decDigits m ++ (decChunk4 ++ (decDigits t ++ (decChunk5
      ++ (decDigits pp
        ++ (36 :: (b64Encode salt ++ (36 :: [encChar (h0 / 4)]))))))))))) :
    decodeParams mode (Parser.mk BUF OFF) = none := by
  rw [decodeParams_scan mode v m t pp (b64Encode salt) [encChar (h0 / 4)] BUF OFF
    hv1 hv255 hm hmB ht htB hp hpB (b64Encode_ne_36 salt hsb)
    (b64Encode_ne_nil salt hsne) (by simp) hdrop]
  rw [b64_roundtrip salt hsb, b64Decode_single_enc (h0 / 4) (by omega)]

/-- Master truncation lemma for the parameter tail: any strict prefix of the
tail that keeps at most one byte of the encoded digest makes the scan fail. -/
theorem decodeParams_trunc (mode v m t pp : Nat) (salt hash BUF : List Nat)
    (OFF j : Nat)
    (hv1 : 1 ≤ v) (hv255 : v ≤ 255)
    (hm : 0 < m) (hmB : m < 4294967296)
    (ht : 0 < t) (htB : t < 4294967296)
    (hp : 0 < pp) (hpB : pp < 4294967296)
    (hsne : salt ≠ []) (hsb : ∀ b ∈ salt, b < 256)
    (hhne : hash ≠ []) (hhb : ∀ b ∈ hash, b < 256)
    (hdrop : BUF.drop OFF = (decChunk2 ++ (decDigits v ++ (decChunk3
      ++ (decDigits m ++ (decChunk4 ++ (decDigits t ++ (decChunk5
      ++ (decDigits pp
        ++ (36 :: (b64Encode salt ++ (36 :: b64Encode hash))))))))))).take j)
    (hj : j ≤ 2 + (decDigits v).length + 3 + (decDigits m).length + 3
      + (decDigits t).length + 3 + (decDigits pp).length + 1
      + (b64Encode salt).length + 2) :
    decodeParams mode (Parser.mk BUF OFF) = none := by
  rcases Nat.lt_or_ge j 2 with hr | hr
  · rw [List.take_append_of_le_length (by
      have h2 : decChunk2.length = 2 := rfl
      omega)] at hdrop
    have hL : BUF.length - OFF = (decChunk2.take j).length := by
      rw [← List.length_drop, hdrop]
    rw [List.length_take] at hL
    have h2 : decChunk2.length = 2 := rfl
    rw [h2] at hL
    interval_cases j
    · rw [List.take_zero] at hdrop
      exact dpFail_head mode BUF OFF (by omega) (Or.inl hdrop)
    · rw [show decChunk2.take 1 = [118] from rfl] at hdrop
      exact dpFail_head mode BUF OFF (by omega) (Or.inr ⟨118, [], hdrop, by decide⟩)
  · obtain ⟨j1, rfl⟩ : ∃ j1, j = decChunk2.length + j1 :=
      ⟨j - 2, by have h2 : decChunk2.length = 2 := rfl; omega⟩
    rw [List.take_append] at hdrop
    rcases le_or_lt j1 (decDigits v).length with hr1 | hr1
    · rw [List.take_append_of_le_length hr1] at hdrop
      exact dpFail_afterV mode ((decDigits v).take j1) BUF OFF
        (fun d hd => decDigits_mem v d (List.take_subset _ _ hd))
        (by
          have hle := digitsVal_front_le v ((decDigits v).take j1)
            ((decDigits v).drop j1) (List.take_append_drop j1 (decDigits v)).symm
          omega)
        hdrop
    · obtain ⟨j2, rfl⟩ : ∃ j2, j1 = (decDigits v).length + j2 :=
        ⟨j1 - (decDigits v).length, by omega⟩
      rw [List.take_append] at hdrop
      rcases Nat.lt_or_ge j2 3 with hr2 | hr2
      · have hj2 : j2 = 1 ∨ j2 = 2 := by omega
        rw [List.take_append_of_le_length (by
          have h3 : decChunk3.length = 3 := rfl
          omega)] at hdrop
        exact dpFail_m0_at3 mode (decDigits v) (decChunk3.take j2) BUF OFF
          (decDigits_mem v) (by rw [digitsVal_decDigits]; omega)
          (by
            rcases hj2 with rfl | rfl
            · exact Or.inl rfl
            · exact Or.inr rfl)
          hdrop
      · obtain ⟨j3, rfl⟩ : ∃ j3, j2 = decChunk3.length + j3 :=
          ⟨j2 - 3, by have h3 : decChunk3.length = 3 := rfl; omega⟩
        rw [List.take_append] at hdrop
        rcases le_or_lt j3 (decDigits m).length with hr3 | hr3
        · rw [List.take_append_of_le_length hr3] at hdrop
          exact dpFail_afterM mode v ((decDigits m).take j3) BUF OFF hv255
            (fun d hd => decDigits_mem m d (List.take_subset _ _ hd))
            (by
              have hle := digitsVal_front_le m ((decDigits m).take j3)
                ((decDigits m).drop j3) (List.take_append_drop j3 (decDigits m)).symm
              omega)
            hdrop
        · obtain ⟨j4, rfl⟩ : ∃ j4, j3 = (decDigits m).length + j4 :=
            ⟨j3 - (decDigits m).length, by omega⟩
          rw [List.take_append] at hdrop
          rcases Nat.lt_or_ge j4 3 with hr4 | hr4
          · have hj4 : j4 = 1 ∨ j4 = 2 := by omega
            rw [List.take_append_of_le_length (by
              have h4 : decChunk4.length = 3 := rfl
              omega)] at hdrop
            exact dpFail_t0_at4 mode v m (decChunk4.take j4) BUF OFF hv255 hmB
              (by
                rcases hj4 with rfl | rfl
                · exact Or.inl rfl
                · exact Or.inr rfl)
              hdrop
          · obtain ⟨j5, rfl⟩ : ∃ j5, j4 = decChunk4.length + j5 :=
              ⟨j4 - 3, by have h4 : decChunk4.length = 3 := rfl; omega⟩
            rw [List.take_append] at hdrop
            rcases le_or_lt j5 (decDigits t).length with hr5 | hr5
            · rw [List.take_append_of_le_length hr5] at hdrop
              exact dpFail_afterT mode v m ((decDigits t).take j5) BUF OFF hv255 hmB
                (fun d hd => decDigits_mem t d (List.take_subset _ _ hd))
                (by
                  have hle := digitsVal_front_le t ((decDigits t).take j5)
                    ((decDigits t).drop j5) (List.take_append_drop j5 (decDigits t)).symm
                  omega)
                hdrop
            · obtain ⟨j6, rfl⟩ : ∃ j6, j5 = (decDigits t).length + j6 :=
                ⟨j5 - (decDigits t).length, by omega⟩
              rw [List.take_append] at hdrop
              rcases Nat.lt_or_ge j6 3 with hr6 | hr6
              · have hj6 : j6 = 1 ∨ j6 = 2 := by omega
                rw [List.take_append_of_le_length (by
                  have h5 : decChunk5.length = 3 := rfl
                  omega)] at hdrop
                exact dpFail_p0_at5 mode v m t (decChunk5.take j6) BUF OFF
                  hv255 hmB htB
                  (by
                    rcases hj6 with rfl | rfl
                    · exact Or.inl rfl
                    · exact Or.inr rfl)
                  hdrop
              · obtain ⟨j7, rfl⟩ : ∃ j7, j6 = decChunk5.length + j7 :=
                  ⟨j6 - 3, by have h5 : decChunk5.length = 3 := rfl; omega⟩
                rw [List.take_append] at hdrop
                rcases le_or_lt j7 (decDigits pp).length with hr7 | hr7
                · rw [List.take_append_of_le_length hr7] at hdrop
                  exact dpFail_afterP mode v m t ((decDigits pp).take j7) BUF OFF
                    hv255 hmB htB
                    (fun d hd => decDigits_mem pp d (List.take_subset _ _ hd))
                    (by
                      have hle := digitsVal_front_le pp ((decDigits pp).take j7)
                        ((decDigits pp).drop j7)
                        (List.take_append_drop j7 (decDigits pp)).symm
                      omega)
                    hdrop
                · obtain ⟨j8, rfl⟩ : ∃ j8, j7 = (decDigits pp).length + j8 :=
                    ⟨j7 - (decDigits pp).length, by omega⟩
                  rw [List.take_append] at hdrop
                  obtain ⟨j9, rfl⟩ : ∃ j9, j8 = j9 + 1 := ⟨j8 - 1, by omega⟩
                  rw [List.take_succ_cons] at hdrop
                  rcases le_or_lt j9 (b64Encode salt).length with hr9 | hr9
                  · rw [List.take_append_of_le_length hr9] at hdrop
                    exact dpFail_saltPartial mode v m t pp
                      ((b64Encode salt).take j9) BUF OFF hv255 hmB htB hpB
                      (fun a ha => b64Encode_ne_36 salt hsb a (List.take_subset _ _ ha))
                      hdrop
                  · obtain ⟨j10, rfl⟩ : ∃ j10, j9 = (b64Encode salt).length + j10 :=
                      ⟨j9 - (b64Encode salt).length, by omega⟩
                    rw [List.take_append] at hdrop
                    have hj10 : j10 = 1 ∨ j10 = 2 := by
                      have h2 : decChunk2.length = 2 := rfl
                      have h3 : decChunk3.length = 3 := rfl
                      have h4 : decChunk4.length = 3 := rfl
                      have h5 : decChunk5.length = 3 := rfl
                      omega
                    obtain ⟨h0, hrest, rfl⟩ : ∃ a l, hash = a :: l := by
                      cases hash with
                      | nil => exact absurd rfl hhne
                      | cons a l => exact ⟨a, l, rfl⟩
                    rcases hj10 with rfl | rfl
                    · rw [show ((36 : Nat) :: b64Encode (h0 :: hrest)).take 1
                          = [36] from rfl] at hdrop
                      exact dpFail_noHash mode v m t pp (b64Encode salt) BUF OFF
                        hv255 hmB htB hpB
                        (b64Encode_ne_36 salt hsb)
                        (b64Encode_ne_nil salt hsne)
                        hdrop
                    · obtain ⟨brest, hBh⟩ := b64Encode_head h0 hrest
                      rw [show ((36 : Nat) :: b64Encode (h0 :: hrest)).take 2
                            = 36 :: (b64Encode (h0 :: hrest)).take 1 from rfl,
                        hBh,
                        show (encChar (h0 / 4) :: brest).take 1
                            = [encChar (h0 / 4)] from rfl] at hdrop
                      exact dpFail_oneHashChar mode v m t pp salt h0 BUF OFF
                        hv1 hv255 hm hmB ht htB hp hpB hsne hsb
                        (hhb h0 (List.mem_cons_self h0 hrest))
                        hdrop

/-- C3 (amended): for every valid record, every proper non-empty prefix of its
encoding that keeps at most one byte of the encoded digest (that is,
k + |base64(hash)| ≤ |encoded| + 1) is rejected by Decode.  Longer prefixes can
decode successfully as a record with a truncated digest, because the digest
field is read to the end of the buffer — that restriction is the amendment. -/
theorem decode_truncation (r : Raw) (k : Nat)
    (hmode : r.Config.Mode = ModeArgon2d ∨ r.Config.Mode = ModeArgon2i
      ∨ r.Config.Mode = ModeArgon2id)
    (hv1 : 1 ≤ r.Config.Version) (hv255 : r.Config.Version ≤ 255)
    (hm : 0 < r.Config.MemoryCost) (hmB : r.Config.MemoryCost < 4294967296)
    (ht : 0 < r.Config.TimeCost) (htB : r.Config.TimeCost < 4294967296)
    (hp : 0 < r.Config.Parallelism) (hpB : r.Config.Parallelism < 4294967296)
    (hsne : r.Salt ≠ []) (hsb : ∀ b ∈ r.Salt, b < 256)
    (hhne : r.Hash ≠ []) (hhb : ∀ b ∈ r.Hash, b < 256)
    (hk1 : 0 < k) (hk2 : k < r.Encode.length)
    (hk3 : k + (b64Encode r.Hash).length ≤ r.Encode.length + 1) :
    Decode (r.Encode.take k) = none := by
  obtain ⟨⟨HL, SL, T, M, P, MO, V⟩, S, H⟩ := r
  dsimp only at hmode hv1 hv255 hm hmB ht htB hp hpB hsne hsb hhne hhb hk2 hk3 ⊢
  rcases hmode with h2 | h2 | h2 <;> subst h2
  · have henc : Raw.Encode ⟨⟨HL, SL, T, M, P, ModeArgon2d, V⟩, S, H⟩
        = decChunk1 ++ (100 :: (36 :: (decChunk2 ++ (decDigits V ++ (decChunk3
          ++ (decDigits M ++ (decChunk4 ++ (decDigits T ++ (decChunk5 ++ (decDigits P
          ++ (36 :: (b64Encode S ++ (36 :: b64Encode H))))))))))))) := by
      unfold Raw.Encode
      dsimp only
      rw [if_pos rfl]
      simp [decChunk1, decChunk2, decChunk3, decChunk4, decChunk5, encTypD,
        List.append_assoc]
    rw [henc] at hk2 hk3 ⊢
    have hlen : (decChunk1 ++ (100 :: (36 :: (decChunk2 ++ (decDigits V ++ (decChunk3
        ++ (decDigits M ++ (decChunk4 ++ (decDigits T ++ (decChunk5 ++ (decDigits P
        ++ (36 :: (b64Encode S ++ (36 :: b64Encode H)))))))))))))).length
        = 9 + (2 + (decDigits V).length + 3 + (decDigits M).length + 3
          + (decDigits T).length + 3 + (decDigits P).length + 1
          + (b64Encode S).length + 1 + (b64Encode H).length) := by
      simp only [List.length_append, List.length_cons, List.length_nil, decChunk1,
        decChunk2, decChunk3, decChunk4, decChunk5]
      omega
    have hsplit : decChunk1 ++ (100 :: (36 :: (decChunk2 ++ (decDigits V ++ (decChunk3
        ++ (decDigits M ++ (decChunk4 ++ (decDigits T ++ (decChunk5 ++ (decDigits P
        ++ (36 :: (b64Encode S ++ (36 :: b64Encode H)))))))))))))
        = ([36, 97, 114, 103, 111, 110, 50, 100, 36] : List Nat)
          ++ (decChunk2 ++ (decDigits V ++ (decChunk3
          ++ (decDigits M ++ (decChunk4 ++ (decDigits T ++ (decChunk5 ++ (decDigits P
          ++ (36 :: (b64Encode S ++ (36 :: b64Encode H))))))))))) := rfl
    rcases Nat.lt_or_ge k 9 with hk9 | hk9
    · have h9 : k ≤ ([36, 97, 114, 103, 111, 110, 50, 100, 36] : List Nat).length := by
        show k ≤ 9
        omega
      rw [hsplit, List.take_append_of_le_length h9]
      interval_cases k <;> decide
    · obtain ⟨j, rfl⟩ : ∃ j, k = 9 + j := ⟨k - 9, by omega⟩
      rw [hsplit,
        show (9 : Nat) + j = ([36, 97, 114, 103, 111, 110, 50, 100, 36]
          : List Nat).length + j from rfl,
        List.take_append]
      exact decode_variant_d _ none (fun BUF OFF hd =>
        decodeParams_trunc 0 V M T P S H BUF OFF j hv1 hv255 hm hmB ht htB hp hpB
          hsne hsb hhne hhb hd (by omega))
  · have henc : Raw.Encode ⟨⟨HL, SL, T, M, P, ModeArgon2i, V⟩, S, H⟩
        = decChunk1 ++ (105 :: (36 :: (decChunk2 ++ (decDigits V ++ (decChunk3
          ++ (decDigits M ++ (decChunk4 ++ (decDigits T ++ (decChunk5 ++ (decDigits P
          ++ (36 :: (b64Encode S ++ (36 :: b64Encode H))))))))))))) := by
      unfold Raw.Encode
      dsimp only
      rw [if_neg (by decide), if_pos rfl]
      simp [decChunk1, decChunk2, decChunk3, decChunk4, decChunk5, encTypI,
        List.append_assoc]
    rw [henc] at hk2 hk3 ⊢
    have hlen : (decChunk1 ++ (105 :: (36 :: (decChunk2 ++ (decDigits V ++ (decChunk3
        ++ (decDigits M ++ (decChunk4 ++ (decDigits T ++ (decChunk5 ++ (decDigits P
        ++ (36 :: (b64Encode S ++ (36 :: b64Encode H)))))))))))))).length
        = 9 + (2 + (decDigits V).length + 3 + (decDigits M).length + 3
          + (decDigits T).length + 3 + (decDigits P).length + 1
          + (b64Encode S).length + 1 + (b64Encode H).length) := by
      simp only [List.length_append, List.length_cons, List.length_nil, decChunk1,
        decChunk2, decChunk3, decChunk4, decChunk5]
      omega
    have hsplit : decChunk1 ++ (105 :: (36 :: (decChunk2 ++ (decDigits V ++ (decChunk3
        ++ (decDigits M ++ (decChunk4 ++ (decDigits T ++ (decChunk5 ++ (decDigits P
        ++ (36 :: (b64Encode S ++ (36 :: b64Encode H)))))))))))))
        = ([36, 97, 114, 103, 111, 110, 50, 105, 36] : List Nat)
          ++ (decChunk2 ++ (decDigits V ++ (decChunk3
          ++ (decDigits M ++ (decChunk4 ++ (decDigits T ++ (decChunk5 ++ (decDigits P
          ++ (36 :: (b64Encode S ++ (36 :: b64Encode H))))))))))) := rfl
    rcases Nat.lt_or_ge k 9 with hk9 | hk9
    · have h9 : k ≤ ([36, 97, 114, 103, 111, 110, 50, 105, 36] : List Nat).length := by
        show k ≤ 9
        omega
      rw [hsplit, List.take_append_of_le_length h9]
      interval_cases k <;> decide
    · obtain ⟨j, rfl⟩ : ∃ j, k = 9 + j := ⟨k - 9, by omega⟩
      rw [hsplit,
        show (9 : Nat) + j = ([36, 97, 114, 103, 111, 110, 50, 105, 36]
          : List Nat).length + j from rfl,
        List.take_append]
      exact decode_variant_i _ none (fun BUF OFF hd =>
        decodeParams_trunc 1 V M T P S H BUF OFF j hv1 hv255 hm hmB ht htB hp hpB
          hsne hsb hhne hhb hd (by omega))
  · have henc : Raw.Encode ⟨⟨HL, SL, T, M, P, ModeArgon2id, V⟩, S, H⟩
        = decChunk1 ++ (105 :: (100 :: (36 :: (decChunk2 ++ (decDigits V ++ (decChunk3
          ++ (decDigits M ++ (decChunk4 ++ (decDigits T ++ (decChunk5 ++ (decDigits P
          ++ (36 :: (b64Encode S ++ (36 :: b64Encode H)))))))))))))) := by
      unfold Raw.Encode
      dsimp only
      rw [if_neg (by decide), if_neg (by decide), if_pos rfl]
      simp [decChunk1, decChunk2, decChunk3, decChunk4, decChunk5, encTypID,
        List.append_assoc]
    rw [henc] at hk2 hk3 ⊢
    have hlen : (decChunk1 ++ (105 :: (100 :: (36 :: (decChunk2 ++ (decDigits V
        ++ (decChunk3 ++ (decDigits M ++ (decChunk4 ++ (decDigits T ++ (decChunk5
        ++ (decDigits P
        ++ (36 :: (b64Encode S ++ (36 :: b64Encode H))))))))))))))).length
        = 10 + (2 + (decDigits V).length + 3 + (decDigits M).length + 3
          + (decDigits T).length + 3 + (decDigits P).length + 1
          + (b64Encode S).length + 1 + (b64Encode H).length) := by
      simp only [List.length_append, List.length_cons, List.length_nil, decChunk1,
        decChunk2, decChunk3, decChunk4, decChunk5]
      omega
    have hsplit : decChunk1 ++ (105 :: (100 :: (36 :: (decChunk2 ++ (decDigits V
        ++ (decChunk3 ++ (decDigits M ++ (decChunk4 ++ (decDigits T ++ (decChunk5
        ++ (decDigits P ++ (36 :: (b64Encode S ++ (36 :: b64Encode H))))))))))))))
        = ([36, 97, 114, 103, 111, 110, 50, 105, 100, 36] : List Nat)
          ++ (decChunk2 ++ (decDigits V ++ (decChunk3
          ++ (decDigits M ++ (decChunk4 ++ (decDigits T ++ (decChunk5 ++ (decDigits P
          ++ (36 :: (b64Encode S ++ (36 :: b64Encode H))))))))))) := rfl
    rcases Nat.lt_or_ge k 10 with hk10 | hk10
    · have h10 : k
          ≤ ([36, 97, 114, 103, 111, 110, 50, 105, 100, 36] : List Nat).length := by
        show k ≤ 10
        omega
      rw [hsplit, List.take_append_of_le_length h10]
      interval_cases k <;> decide
    · obtain ⟨j, rfl⟩ : ∃ j, k = 10 + j := ⟨k - 10, by omega⟩
      rw [hsplit,
        show (10 : Nat) + j = ([36, 97, 114, 103, 111, 110, 50, 105, 100, 36]
          : List Nat).length + j from rfl,
        List.take_append]
      exact decode_variant_id _ none (fun BUF OFF hd =>
        decodeParams_trunc 2 V M T P S H BUF OFF j hv1 hv255 hm hmB ht htB hp hpB
          hsne hsb hhne hhb hd (by omega))

/-- Witness for the amended truncation theorem: the canonical encoded string cut
after its first 10 bytes (the text `$argon2id$`) is rejected. -/
theorem decode_truncation_witness : Decode (canonRaw.Encode.take 10) = none :=
  decode_truncation canonRaw 10 (by decide) (by decide) (by decide) (by decide)
    (by decide) (by decide) (by decide) (by decide) (by decide) (by decide)
    (by decide) (by decide) (by decide) (by decide) (by decide) (by decide)

end Argon2
